import Mathlib

/-! Verification of llvm/soong/min_tblgen.go.

A shallow embedding of the Soong module type `llvm_min_tblgen`
(`src/llvm/soong/min_tblgen.go`) and theorems about it.

Go strings are embedded as Lean strings.  The only byte the path helpers
inspect is the ASCII separator `/`, which never occurs inside a multi-byte
UTF-8 sequence, so working on characters agrees with Go working on bytes for
every valid UTF-8 string.

The `android.ModuleContext` handed to the module by Soong is embedded as an
explicit record: the values the host answers with (`ModuleDir`, the two path
allocators) and the two lists the host accumulates (build actions registered
through `ModuleBuild`, errors recorded through `ModuleErrorf`).
-/

set_option autoImplicit false

/-! ## Go standard library helpers (`os`, `strings`, `path/filepath`, Unix) -/

/-- Go `os.IsPathSeparator` on Unix: the only separator is the slash. -/
def os.IsPathSeparator (c : Char) : Bool := c == '/'

/-- Go `strings.HasSuffix`:
`len(s) >= len(suffix) && s[len(s)-len(suffix):] == suffix`. -/
def strings.HasSuffix (s suffix : String) : Bool :=
  decide (s.data.length ≥ suffix.data.length) &&
    s.data.drop (s.data.length - suffix.data.length) == suffix.data

/-- Go `strings.Join`: the elements separated by `sep`. -/
def strings.Join : List String → String → String
  | [], _ => ""
  | [e], _ => e
  | e :: es, sep => es.foldl (fun b s => b ++ sep ++ s) e

/-- Go `filepath.Base` on Unix (no volume names): the last element of the path.
Trailing slashes are removed before extracting the last element; the empty
path gives ".", a path of slashes only gives "/". -/
def filepath.Base (path : String) : String :=
  if path == "" then "."
  else
    -- Strip trailing slashes.
    let p := path.data.rdropWhile os.IsPathSeparator
    -- Find the last element.
    let p := p.rtakeWhile (fun c => !os.IsPathSeparator c)
    -- If empty now, it had only slashes.
    if p == [] then "/" else String.mk p

/-- The `..` case of Go `filepath.Clean` when it can backtrack: `out.w--`, then
keep decrementing while `out.w > dotdot` and the byte just dropped is not a
separator.  The buffer is kept reversed (most recently written byte first). -/
def filepath.backtrack (dotdot : Nat) : List Char → List Char
  | [] => []
  | c :: rest =>
    if decide (rest.length > dotdot) && !os.IsPathSeparator c then
      filepath.backtrack dotdot rest
    else rest

/-- The main loop of Go `filepath.Clean`.  `path` is the input still to be read
(`path[r:]`), `out` the reversed output buffer, `dotdot` the index where `..`
must stop.  Every iteration consumes at least one byte, so fuel equal to the
length of the input is enough. -/
def filepath.cleanLoop (rooted : Bool) : Nat → List Char → List Char → Nat → List Char
  | 0, _, out, _ => out
  | _ + 1, [], out, _ => out
  | fuel + 1, c :: rest, out, dotdot =>
    if os.IsPathSeparator c then
      -- empty path element
      filepath.cleanLoop rooted fuel rest out dotdot
    else if c == '.' && (rest.isEmpty || (rest.head?.map os.IsPathSeparator).getD false) then
      -- . element
      filepath.cleanLoop rooted fuel rest out dotdot
    else if c == '.' && rest.head? == some '.' &&
        (rest.tail.isEmpty || (rest.tail.head?.map os.IsPathSeparator).getD false) then
      -- .. element: remove to last separator
      if out.length > dotdot then
        filepath.cleanLoop rooted fuel rest.tail (filepath.backtrack dotdot out) dotdot
      else if !rooted then
        let out := if out.length > 0 then '/' :: out else out
        let out := '.' :: '.' :: out
        filepath.cleanLoop rooted fuel rest.tail out out.length
      else
        filepath.cleanLoop rooted fuel rest.tail out dotdot
    else
      -- real path element: add slash if needed, then copy the element
      let out := if (rooted && out.length != 1) || (!rooted && out.length != 0)
        then '/' :: out else out
      let elem := (c :: rest).takeWhile (fun x => !os.IsPathSeparator x)
      filepath.cleanLoop rooted fuel ((c :: rest).dropWhile (fun x => !os.IsPathSeparator x))
        (elem.reverse ++ out) dotdot

/-- Go `filepath.Clean` on Unix: the shortest equivalent path by purely lexical
processing. -/
def filepath.Clean (path : String) : String :=
  if path == "" then "."
  else
    let rooted := (path.data.head?.map os.IsPathSeparator).getD false
    let start := if rooted then path.data.tail else path.data
    let out := filepath.cleanLoop rooted path.data.length start
      (if rooted then ['/'] else []) (if rooted then 1 else 0)
    -- Turn empty string into "."
    if out.isEmpty then "." else String.mk out.reverse

/-- Go `filepath.Dir` on Unix: all but the last element of the path, cleaned. -/
def filepath.Dir (path : String) : String :=
  filepath.Clean (String.mk (path.data.rdropWhile (fun c => !os.IsPathSeparator c)))

/-! ## The host build graph (`android/soong/android`, `blueprint`) -/

/-- An `android.Path`: a path handed out by the host, observed through
`String()`. -/
structure android.Path where
  path : String
  deriving DecidableEq, Repr

/-- The `String()` method of `android.Path`. -/
def android.Path.String (p : android.Path) := p.path

/-- An `android.Paths` value: a slice of paths. -/
abbrev android.Paths := List android.Path

/-- A `blueprint.RuleParams` value, with the fields the rule sets. -/
structure blueprint.RuleParams where
  Depfile : String
  Deps : String
  Command : String
  CommandDeps : List String
  Description : String
  Restat : Bool
  deriving DecidableEq, Repr

/-- A rule created by `StaticRule`: its name, its parameters and the names of
the arguments a build statement may set. -/
structure blueprint.Rule where
  name : String
  params : blueprint.RuleParams
  argNames : List String
  deriving DecidableEq, Repr

/-- An `android.ModuleBuildParams` value, with the fields the module sets.
`Args` is the Go map literal, kept as its association list. -/
structure android.ModuleBuildParams where
  Rule : blueprint.Rule
  Input : android.Path
  Output : android.Path
  Args : List (String × String)
  deriving DecidableEq, Repr

/-- An error recorded by `ctx.ModuleErrorf`: the format string and its
arguments (the rendering of the format verbs is the host's). -/
structure android.ModuleError where
  format : String
  args : List String
  deriving DecidableEq, Repr

/-- The `android.ModuleContext` of the module under evaluation.  The first
three fields are what the host answers when asked (`ctx.ModuleDir()`,
`android.PathForModuleSrc(ctx, p)`, `android.PathForModuleGen(ctx, p)`); the
last two are what the host has accumulated so far. -/
structure android.ModuleContext where
  moduleDir : String
  pathForModuleSrc : String → android.Path
  pathForModuleGen : String → android.Path
  builds : List android.ModuleBuildParams
  errs : List android.ModuleError

/-- The method `ctx.ModuleDir()`. -/
def android.ModuleContext.ModuleDir (ctx : android.ModuleContext) : String :=
  ctx.moduleDir

/-- The function `android.PathForModuleSrc(ctx, p)`. -/
def android.PathForModuleSrc (ctx : android.ModuleContext) (p : String) : android.Path :=
  ctx.pathForModuleSrc p

/-- The function `android.PathForModuleGen(ctx, p)`. -/
def android.PathForModuleGen (ctx : android.ModuleContext) (p : String) : android.Path :=
  ctx.pathForModuleGen p

/-- The method `ctx.ModuleErrorf(format, args...)`: Blueprint appends the error
to the errors of the context and returns to the caller. -/
def android.ModuleContext.ModuleErrorf (ctx : android.ModuleContext) (format : String)
    (args : List String) : android.ModuleContext :=
  { ctx with errs := ctx.errs ++ [{ format := format, args := args }] }

/-- The method `ctx.ModuleBuild(pctx, params)`: the build statement is appended
to the build actions of the module. -/
def android.ModuleContext.ModuleBuild (ctx : android.ModuleContext)
    (params : android.ModuleBuildParams) : android.ModuleContext :=
  { ctx with builds := ctx.builds ++ [params] }

/-! ## `min_tblgen.go` -/

/-- The host tool variable `llvmMinTblgen`, as it is referred to in commands. -/
def llvmMinTblgen : String := "$\x7bllvmMinTblgen\x7d"

/-- The rule `min_tblgenRule`. -/
def min_tblgenRule : blueprint.Rule :=
  { name := "min_tblgenRule"
    params :=
      { Depfile := "$\x7bout\x7d.d"
        Deps := "gcc"
        Command := "$\x7bllvmMinTblgen\x7d $\x7bincludes\x7d $\x7bgenerator\x7d -d $\x7bdepfile\x7d -o $\x7bout\x7d $\x7bin\x7d"
        CommandDeps := ["$\x7bllvmMinTblgen\x7d"]
        Description := "LLVM Min TableGen $in => $out"
        Restat := true }
    argNames := ["includes", "depfile", "generator"] }

/-- The struct `min_tblgenProperties`. -/
structure min_tblgenProperties where
  In : String
  Outs : List String
  deriving DecidableEq, Repr

/-- The struct `min_tblgen` (the embedded `android.ModuleBase` is the host's). -/
structure min_tblgen where
  properties : min_tblgenProperties
  exportedHeaderDirs : android.Paths
  generatedHeaders : android.Paths
  deriving DecidableEq, Repr

/-- The function `min_tblgen_outToGenerator(ctx, out)`: the generator flags for
an output file.  Returns the context (with the error appended when no case of
the switch matches) and the returned string. -/
def min_tblgen_outToGenerator (ctx : android.ModuleContext) (out : String) :
    android.ModuleContext × String :=
  let out := filepath.Base out
  if out == "Attributes.inc" || out == "AttributesCompatFunc.inc" then
    (ctx, "-gen-attrs")
  else if out == "IntrinsicEnums.inc" then
    (ctx, "-gen-intrinsic-enums")
  else if out == "IntrinsicImpl.inc" then
    (ctx, "-gen-intrinsic-impl")
  else if out == "IntrinsicsAArch64.h" then
    (ctx, "-gen-intrinsic-enums -intrinsic-prefix=aarch64")
  else if out == "IntrinsicsAMDGPU.h" then
    (ctx, "-gen-intrinsic-enums -intrinsic-prefix=amdgcn")
  else if out == "IntrinsicsARM.h" then
    (ctx, "-gen-intrinsic-enums -intrinsic-prefix=arm")
  else if out == "IntrinsicsBPF.h" then
    (ctx, "-gen-intrinsic-enums -intrinsic-prefix=bpf")
  else if out == "IntrinsicsDirectX.h" then
    (ctx, "-gen-intrinsic-enums -intrinsic-prefix=dx")
  else if out == "IntrinsicsHexagon.h" then
    (ctx, "-gen-intrinsic-enums -intrinsic-prefix=hexagon")
  else if out == "IntrinsicsLoongArch.h" then
    (ctx, "-gen-intrinsic-enums -intrinsic-prefix=loongarch")
  else if out == "IntrinsicsMips.h" then
    (ctx, "-gen-intrinsic-enums -intrinsic-prefix=mips")
  else if out == "IntrinsicsNVPTX.h" then
    (ctx, "-gen-intrinsic-enums -intrinsic-prefix=nvvm")
  else if out == "IntrinsicsPowerPC.h" then
    (ctx, "-gen-intrinsic-enums -intrinsic-prefix=ppc")
  else if out == "IntrinsicsR600.h" then
    (ctx, "-gen-intrinsic-enums -intrinsic-prefix=r600")
  else if out == "IntrinsicsRISCV.h" then
    (ctx, "-gen-intrinsic-enums -intrinsic-prefix=riscv")
  else if out == "IntrinsicsS390.h" then
    (ctx, "-gen-intrinsic-enums -intrinsic-prefix=s390")
  else if out == "IntrinsicsSPIRV.h" then
    (ctx, "-gen-intrinsic-enums -intrinsic-prefix=spv")
  else if out == "IntrinsicsWebAssembly.h" then
    (ctx, "-gen-intrinsic-enums -intrinsic-prefix=wasm")
  else if out == "IntrinsicsX86.h" then
    (ctx, "-gen-intrinsic-enums -intrinsic-prefix=x86")
  else if out == "IntrinsicsXCore.h" then
    (ctx, "-gen-intrinsic-enums -intrinsic-prefix=xcore")
  else if out == "IntrinsicsVE.h" then
    (ctx, "-gen-intrinsic-enums -intrinsic-prefix=ve")
  else if out == "ACC.h.inc" then
    (ctx, "--gen-directive-decl")
  else if out == "ACC.inc" then
    (ctx, "--gen-directive-impl")
  else if out == "OMP.h.inc" then
    (ctx, "--gen-directive-decl")
  else if out == "OMP.inc" then
    (ctx, "--gen-directive-impl")
  else if out == "GenVT.inc" then
    (ctx, "--gen-vt")
  else if strings.HasSuffix out "RISCVTargetParserDef.inc" then
    (ctx, "-gen-riscv-target-def")
  else
    (ctx.ModuleErrorf "couldn't map output file %q to a generator" [out], "")

/-- The slice `includes` built at the top of `GenerateAndroidBuildActions`. -/
def min_tblgen.includes (ctx : android.ModuleContext) (input : android.Path) : List String :=
  [ "-I " ++ ctx.ModuleDir,
    "-I external/llvm-project/llvm/include",
    "-I external/llvm-project/llvm/lib/Target",
    "-I " ++ filepath.Dir input.String ]

/-- One iteration of the loop over `t.properties.Outs` in
`GenerateAndroidBuildActions`, for the output name `o`. -/
def min_tblgen.buildOutput (input : android.Path) (includes : List String)
    (s : min_tblgen × android.ModuleContext) (o : String) : min_tblgen × android.ModuleContext :=
  let t := s.1
  let ctx := s.2
  let out := android.PathForModuleGen ctx o
  let r := min_tblgen_outToGenerator ctx o
  let ctx := r.1
  let generator := r.2
  let ctx := ctx.ModuleBuild
    { Rule := min_tblgenRule
      Input := input
      Output := out
      Args := [("includes", strings.Join includes " "), ("generator", generator)] }
  ({ t with generatedHeaders := t.generatedHeaders ++ [out] }, ctx)

/-- The method `(t *min_tblgen) GenerateAndroidBuildActions(ctx)`: the module
and the context after the call. -/
def min_tblgen.GenerateAndroidBuildActions (t : min_tblgen) (ctx : android.ModuleContext) :
    min_tblgen × android.ModuleContext :=
  let input := android.PathForModuleSrc ctx t.properties.In
  let includes := min_tblgen.includes ctx input
  let s := t.properties.Outs.foldl (min_tblgen.buildOutput input includes) (t, ctx)
  let t := s.1
  let ctx := s.2
  ({ t with exportedHeaderDirs := t.exportedHeaderDirs ++ [android.PathForModuleGen ctx ""] }, ctx)

/-- The method `GeneratedHeaderDirs`. -/
def min_tblgen.GeneratedHeaderDirs (t : min_tblgen) : android.Paths := t.exportedHeaderDirs

/-- The method `GeneratedSourceFiles`: always nil. -/
def min_tblgen.GeneratedSourceFiles (_t : min_tblgen) : android.Paths := []

/-- The method `GeneratedDeps`. -/
def min_tblgen.GeneratedDeps (t : min_tblgen) : android.Paths := t.generatedHeaders

/-- The module `llvmMinTblgenFactory` creates, once the host has filled in its
properties: nothing generated or exported yet. -/
def llvmMinTblgenFactory (properties : min_tblgenProperties) : min_tblgen :=
  { properties := properties, exportedHeaderDirs := [], generatedHeaders := [] }

/-! ## The switch of `min_tblgen_outToGenerator` as a table -/

/-- The exact-match cases of the switch in `min_tblgen_outToGenerator`, in
source order: the name compared with `out`, and the string returned. -/
def min_tblgen.exactCases : List (String × String) :=
  [ ("Attributes.inc", "-gen-attrs"),
    ("AttributesCompatFunc.inc", "-gen-attrs"),
    ("IntrinsicEnums.inc", "-gen-intrinsic-enums"),
    ("IntrinsicImpl.inc", "-gen-intrinsic-impl"),
    ("IntrinsicsAArch64.h", "-gen-intrinsic-enums -intrinsic-prefix=aarch64"),
    ("IntrinsicsAMDGPU.h", "-gen-intrinsic-enums -intrinsic-prefix=amdgcn"),
    ("IntrinsicsARM.h", "-gen-intrinsic-enums -intrinsic-prefix=arm"),
    ("IntrinsicsBPF.h", "-gen-intrinsic-enums -intrinsic-prefix=bpf"),
    ("IntrinsicsDirectX.h", "-gen-intrinsic-enums -intrinsic-prefix=dx"),
    ("IntrinsicsHexagon.h", "-gen-intrinsic-enums -intrinsic-prefix=hexagon"),
    ("IntrinsicsLoongArch.h", "-gen-intrinsic-enums -intrinsic-prefix=loongarch"),
    ("IntrinsicsMips.h", "-gen-intrinsic-enums -intrinsic-prefix=mips"),
    ("IntrinsicsNVPTX.h", "-gen-intrinsic-enums -intrinsic-prefix=nvvm"),
    ("IntrinsicsPowerPC.h", "-gen-intrinsic-enums -intrinsic-prefix=ppc"),
    ("IntrinsicsR600.h", "-gen-intrinsic-enums -intrinsic-prefix=r600"),
    ("IntrinsicsRISCV.h", "-gen-intrinsic-enums -intrinsic-prefix=riscv"),
    ("IntrinsicsS390.h", "-gen-intrinsic-enums -intrinsic-prefix=s390"),
    ("IntrinsicsSPIRV.h", "-gen-intrinsic-enums -intrinsic-prefix=spv"),
    ("IntrinsicsWebAssembly.h", "-gen-intrinsic-enums -intrinsic-prefix=wasm"),
    ("IntrinsicsX86.h", "-gen-intrinsic-enums -intrinsic-prefix=x86"),
    ("IntrinsicsXCore.h", "-gen-intrinsic-enums -intrinsic-prefix=xcore"),
    ("IntrinsicsVE.h", "-gen-intrinsic-enums -intrinsic-prefix=ve"),
    ("ACC.h.inc", "--gen-directive-decl"),
    ("ACC.inc", "--gen-directive-impl"),
    ("OMP.h.inc", "--gen-directive-decl"),
    ("OMP.inc", "--gen-directive-impl"),
    ("GenVT.inc", "--gen-vt") ]

/-- The names of the exact-match cases of the switch. -/
def min_tblgen.exactNames : List String := min_tblgen.exactCases.map Prod.fst

/-- The suffix tested by the last case of the switch. -/
def min_tblgen.targetParserDef : String := "RISCVTargetParserDef.inc"

/-- Whether some case of the switch matches the base name `base`: it is one of
the exact names, or it ends in the target-parser suffix. -/
def min_tblgen.recognized (base : String) : Bool :=
  decide (base ∈ min_tblgen.exactNames) || strings.HasSuffix base min_tblgen.targetParserDef

/-- The error `min_tblgen_outToGenerator` records for the base name `base`. -/
def min_tblgen.unmapped (base : String) : android.ModuleError :=
  { format := "couldn't map output file %q to a generator", args := [base] }

/-- The build statement `GenerateAndroidBuildActions` registers for the output
name `o`, as a function of the context the module is evaluated in. -/
def min_tblgen.action (t : min_tblgen) (ctx : android.ModuleContext) (o : String) :
    android.ModuleBuildParams :=
  { Rule := min_tblgenRule
    Input := android.PathForModuleSrc ctx t.properties.In
    Output := android.PathForModuleGen ctx o
    Args :=
      [ ("includes",
          strings.Join (min_tblgen.includes ctx (android.PathForModuleSrc ctx t.properties.In)) " "),
        ("generator", (min_tblgen_outToGenerator ctx o).2) ] }

/-- A sample context: module directory `external/llvm-project/llvm`, sources
resolved below it, generated files below `out/gen`, nothing registered yet. -/
def sampleCtx : android.ModuleContext :=
  { moduleDir := "external/llvm-project/llvm"
    pathForModuleSrc := fun p => ⟨"external/llvm-project/llvm/" ++ p⟩
    pathForModuleGen := fun p => ⟨"out/gen/" ++ p⟩
    builds := []
    errs := [] }

/-- A sample module: a valid name, an unknown name, and a valid name again. -/
def sampleModule : min_tblgen :=
  llvmMinTblgenFactory
    { In := "include/llvm/IR/Attributes.td"
      Outs := ["Attributes.inc", "Unknown.inc", "GenVT.inc"] }

/-- The per-architecture intrinsics headers of the switch, in source order. -/
def min_tblgen.archHeaders : List String :=
  [ "IntrinsicsAArch64.h", "IntrinsicsAMDGPU.h", "IntrinsicsARM.h", "IntrinsicsBPF.h",
    "IntrinsicsDirectX.h", "IntrinsicsHexagon.h", "IntrinsicsLoongArch.h", "IntrinsicsMips.h",
    "IntrinsicsNVPTX.h", "IntrinsicsPowerPC.h", "IntrinsicsR600.h", "IntrinsicsRISCV.h",
    "IntrinsicsS390.h", "IntrinsicsSPIRV.h", "IntrinsicsWebAssembly.h", "IntrinsicsX86.h",
    "IntrinsicsXCore.h", "IntrinsicsVE.h" ]

/-- The test of one rule of the switch: equality with a name, or having a
suffix. -/
inductive min_tblgen.Pattern where
  | exact (name : String)
  | hasSuffix (suffix : String)
  deriving DecidableEq, Repr

/-- Whether the base name `out` passes the test. -/
def min_tblgen.Pattern.holds (out : String) : min_tblgen.Pattern → Bool
  | .exact name => out == name
  | .hasSuffix suffix => strings.HasSuffix out suffix

/-- The rules of the switch in source order: one exact-match rule per name
compared with `out`, then the suffix rule; each with the string returned. -/
def min_tblgen.rules : List (min_tblgen.Pattern × String) :=
  min_tblgen.exactCases.map (fun c => (min_tblgen.Pattern.exact c.1, c.2)) ++
    [(min_tblgen.Pattern.hasSuffix min_tblgen.targetParserDef, "-gen-riscv-target-def")]

/-- A classifier that evaluates a given list of rules in the order of the list
and takes the first rule whose test passes on the base name; without such a
rule it records the error and returns the empty string. -/
def min_tblgen.classifyWith (rs : List (min_tblgen.Pattern × String))
    (ctx : android.ModuleContext) (out : String) : android.ModuleContext × String :=
  let out := filepath.Base out
  match rs.find? (fun r => r.1.holds out) with
  | some r => (ctx, r.2)
  | none => (ctx.ModuleErrorf "couldn't map output file %q to a generator" [out], "")

/-! ## Ninja: evaluation of a rule's command for a build statement -/

/-- The states of the scan of a Ninja string: plain text, just after a dollar,
inside a braced reference (the name read so far, reversed), inside an unbraced
reference (likewise). -/
inductive ninja.ScanState where
  | text
  | dollar
  | braces (name : List Char)
  | simple (name : List Char)
  deriving DecidableEq, Repr

/-- A character of an unbraced variable name: a letter, a digit, `_` or `-`. -/
def ninja.isSimpleVarChar (c : Char) : Bool := c.isAlphanum || c == '_' || c == '-'

/-- A character of a braced variable name: as above, or a dot. -/
def ninja.isVarChar (c : Char) : Bool := ninja.isSimpleVarChar c || c == '.'

/-- Evaluation of a Ninja string in an environment: every reference to a
variable, braced or not, is replaced by the value of the variable; a dollar
followed by a dollar, a space or a colon stands for that character.  A
malformed string, or a variable the environment cannot evaluate, gives
`none`; so does a dollar before a line break (Ninja's line continuation),
which a one-line command never holds. -/
def ninja.evaluate (env : String → Option String) :
    ninja.ScanState → List Char → Option (List Char)
  | .text, [] => some []
  | .text, c :: cs =>
    if c == '$' then ninja.evaluate env .dollar cs
    else (ninja.evaluate env .text cs).map (fun r => c :: r)
  | .dollar, [] => none
  | .dollar, c :: cs =>
    if c == '\x7b' then ninja.evaluate env (.braces []) cs
    else if c == '$' || c == ' ' || c == ':' then
      (ninja.evaluate env .text cs).map (fun r => c :: r)
    else if ninja.isSimpleVarChar c then ninja.evaluate env (.simple [c]) cs
    else none
  | .braces _, [] => none
  | .braces name, c :: cs =>
    if c == '\x7d' then
      if name.isEmpty then none
      else
        (env (String.mk name.reverse)).bind fun v =>
          (ninja.evaluate env .text cs).map (fun r => v.data ++ r)
    else if ninja.isVarChar c then ninja.evaluate env (.braces (c :: name)) cs
    else none
  | .simple name, [] => (env (String.mk name.reverse)).map (fun v => v.data)
  | .simple name, c :: cs =>
    if ninja.isSimpleVarChar c then ninja.evaluate env (.simple (c :: name)) cs
    else
      (env (String.mk name.reverse)).bind fun v =>
        (if c == '$' then ninja.evaluate env .dollar cs
         else (ninja.evaluate env .text cs).map (fun r => c :: r)).map (fun r => v.data ++ r)

/-- The bindings a Blueprint rule writes into the Ninja rule. -/
def ninja.ruleBinding (rule : blueprint.RuleParams) (var : String) : Option String :=
  if var == "command" then some rule.Command
  else if var == "depfile" then some rule.Depfile
  else if var == "deps" then some rule.Deps
  else if var == "description" then some rule.Description
  else none

/-- The lookup of a variable for a build statement, in Ninja's order: the
special variables `in` and `out`; the variables set on the build statement
(the `Args`); the bindings of the rule, evaluated in this same environment;
the enclosing scope.  `depth` bounds the nesting of rule bindings that refer
to rule bindings (Ninja rejects a cycle); the paths bound to `in` and `out` and
the values of `Args` are taken as written. -/
def ninja.lookupVariable (scope : String → String) (b : android.ModuleBuildParams) :
    Nat → String → Option String
  | depth, var =>
    if var == "in" then some b.Input.String
    else if var == "out" then some b.Output.String
    else
      match b.Args.lookup var with
      | some v => some v
      | none =>
        match ninja.ruleBinding b.Rule.params var with
        | some binding =>
          match depth with
          | 0 => none
          | d + 1 =>
            (ninja.evaluate (ninja.lookupVariable scope b d) .text binding.data).map String.mk
        | none => some (scope var)

/-- The command Ninja runs for a build statement: the `command` binding of its
rule, evaluated for the build statement. -/
def ninja.EvaluateCommand (scope : String → String) (b : android.ModuleBuildParams) :
    Option String :=
  ninja.lookupVariable scope b 4 "command"

/-- A sample enclosing scope: the host tool variable is bound to the path of
the tool, any other variable is unset. -/
def sampleScope (var : String) : String :=
  if var == "llvmMinTblgen" then "out/host/linux-x86/bin/llvm-min-tblgen" else ""

/-! ## Lemmas on the path helpers -/

theorem filepath.Base_data_append (p n : String) (hn : n.data ≠ [])
    (h : ∀ c ∈ n.data, c ≠ '/') :
    filepath.Base (p ++ n) =
      String.mk (p.data.rtakeWhile (fun c => !os.IsPathSeparator c) ++ n.data) := by
  have hne : ¬ (p ++ n = "") := by
    intro he
    have := congrArg String.data he
    simp at this
    exact hn this.2
  have hsep : ∀ c ∈ n.data, os.IsPathSeparator c = false := by
    intro c hc
    simp [os.IsPathSeparator, h c hc]
  have hdrop : (p.data ++ n.data).rdropWhile os.IsPathSeparator = p.data ++ n.data := by
    rw [List.rdropWhile_eq_self_iff]
    intro hne2
    have hl : (p.data ++ n.data).getLast hne2 = n.data.getLast hn := List.getLast_append_of_ne_nil hn
    rw [hl]
    simp [hsep _ (List.getLast_mem hn)]
  have htake : (p.data ++ n.data).rtakeWhile (fun c => !os.IsPathSeparator c) =
      p.data.rtakeWhile (fun c => !os.IsPathSeparator c) ++ n.data := by
    simp only [List.rtakeWhile, List.reverse_append]
    rw [List.takeWhile_append_of_pos]
    · simp
    · intro c hc
      simp [hsep c (List.mem_reverse.mp hc)]
  unfold filepath.Base
  simp only [beq_iff_eq, hne, if_false, String.data_append, hdrop, htake]
  simp [hn]

theorem filepath.Base_of_element (n : String) (hn : n.data ≠ [])
    (h : ∀ c ∈ n.data, c ≠ '/') : filepath.Base n = n := by
  have h0 := filepath.Base_data_append "" n hn h
  have e : ("" : String) ++ n = n := by
    apply String.ext
    simp
  rw [e] at h0
  rw [h0]
  apply String.ext
  simp [List.rtakeWhile]

theorem filepath.Base_cases (p : String) :
    filepath.Base p = "." ∨ filepath.Base p = "/" ∨
      ((filepath.Base p).data ≠ [] ∧ ∀ c ∈ (filepath.Base p).data, c ≠ '/') := by
  unfold filepath.Base
  by_cases h1 : p = ""
  · simp [h1]
  · simp only [beq_iff_eq, h1, if_false]
    split
    · exact Or.inr (Or.inl rfl)
    · rename_i h2
      right
      right
      refine ⟨h2, ?_⟩
      intro c hc
      have := List.mem_rtakeWhile_imp hc
      simpa [os.IsPathSeparator] using this

theorem filepath.Base_idem (p : String) : filepath.Base (filepath.Base p) = filepath.Base p := by
  rcases filepath.Base_cases p with h | h | ⟨h1, h2⟩
  · rw [h]; rfl
  · rw [h]; rfl
  · exact filepath.Base_of_element _ h1 h2

theorem filepath.Base_trailing (p : String) (h : ∃ c ∈ p.data, c ≠ '/') :
    filepath.Base (p ++ "/") = filepath.Base p := by
  obtain ⟨c, hc, hne⟩ := h
  have h1 : ¬ (p = "") := by
    intro he
    rw [he] at hc
    simp at hc
  have h2 : ¬ (p ++ "/" = "") := by
    intro he
    have := congrArg String.data he
    simp at this
  have hd : (p ++ "/").data = p.data ++ ['/'] := by simp
  unfold filepath.Base
  simp only [beq_iff_eq, h1, h2, if_false, hd]
  rw [List.rdropWhile_concat_pos]
  simp [os.IsPathSeparator]

/-! ## The classifier as a table lookup -/

theorem min_tblgen.lookup_cons_of_ne (k a : String) (v : String) (es : List (String × String))
    (h : ¬ k = a) : List.lookup k ((a, v) :: es) = List.lookup k es := by
  have hb : (k == a) = false := by simpa using h
  rw [List.lookup, hb]

theorem min_tblgen_outToGenerator_eq_lookup (ctx : android.ModuleContext) (out : String) :
    min_tblgen_outToGenerator ctx out =
      match min_tblgen.exactCases.lookup (filepath.Base out) with
      | some g => (ctx, g)
      | none =>
        if strings.HasSuffix (filepath.Base out) min_tblgen.targetParserDef then
          (ctx, "-gen-riscv-target-def")
        else (ctx.ModuleErrorf "couldn't map output file %q to a generator" [filepath.Base out], "") := by
  unfold min_tblgen_outToGenerator
  generalize filepath.Base out = b
  simp only [min_tblgen.exactCases, min_tblgen.targetParserDef]
  by_cases h1 : b = "Attributes.inc"
  · subst h1; rfl
  by_cases h2 : b = "AttributesCompatFunc.inc"
  · subst h2; rfl
  by_cases h3 : b = "IntrinsicEnums.inc"
  · subst h3; rfl
  by_cases h4 : b = "IntrinsicImpl.inc"
  · subst h4; rfl
  by_cases h5 : b = "IntrinsicsAArch64.h"
  · subst h5; rfl
  by_cases h6 : b = "IntrinsicsAMDGPU.h"
  · subst h6; rfl
  by_cases h7 : b = "IntrinsicsARM.h"
  · subst h7; rfl
  by_cases h8 : b = "IntrinsicsBPF.h"
  · subst h8; rfl
  by_cases h9 : b = "IntrinsicsDirectX.h"
  · subst h9; rfl
  by_cases h10 : b = "IntrinsicsHexagon.h"
  · subst h10; rfl
  by_cases h11 : b = "IntrinsicsLoongArch.h"
  · subst h11; rfl
  by_cases h12 : b = "IntrinsicsMips.h"
  · subst h12; rfl
  by_cases h13 : b = "IntrinsicsNVPTX.h"
  · subst h13; rfl
  by_cases h14 : b = "IntrinsicsPowerPC.h"
  · subst h14; rfl
  by_cases h15 : b = "IntrinsicsR600.h"
  · subst h15; rfl
  by_cases h16 : b = "IntrinsicsRISCV.h"
  · subst h16; rfl
  by_cases h17 : b = "IntrinsicsS390.h"
  · subst h17; rfl
  by_cases h18 : b = "IntrinsicsSPIRV.h"
  · subst h18; rfl
  by_cases h19 : b = "IntrinsicsWebAssembly.h"
  · subst h19; rfl
  by_cases h20 : b = "IntrinsicsX86.h"
  · subst h20; rfl
  by_cases h21 : b = "IntrinsicsXCore.h"
  · subst h21; rfl
  by_cases h22 : b = "IntrinsicsVE.h"
  · subst h22; rfl
  by_cases h23 : b = "ACC.h.inc"
  · subst h23; rfl
  by_cases h24 : b = "ACC.inc"
  · subst h24; rfl
  by_cases h25 : b = "OMP.h.inc"
  · subst h25; rfl
  by_cases h26 : b = "OMP.inc"
  · subst h26; rfl
  by_cases h27 : b = "GenVT.inc"
  · subst h27; rfl
  simp only [beq_iff_eq, h1, h2, h3, h4, h5, h6, h7, h8, h9, h10, h11, h12, h13, h14, h15, h16, h17, h18, h19, h20, h21, h22, h23, h24, h25, h26, h27, Bool.or_eq_true, or_self, if_false,
    min_tblgen.lookup_cons_of_ne, not_false_eq_true, List.lookup_nil]

theorem min_tblgen.lookup_eq_none_iff (b : String) :
    min_tblgen.exactCases.lookup b = none ↔ b ∉ min_tblgen.exactNames := by
  rw [List.lookup_eq_none_iff]
  unfold min_tblgen.exactNames
  constructor
  · intro h hm
    obtain ⟨p, hp, rfl⟩ := List.mem_map.mp hm
    simpa using h p hp
  · intro h p hp
    have : p.1 ≠ b := fun e => h (List.mem_map.mpr ⟨p, hp, e⟩)
    simpa [bne_iff_ne] using fun e => this e.symm

theorem min_tblgen.exactCases_snd_ne_empty :
    ∀ p ∈ min_tblgen.exactCases, p.2 ≠ "" := by
  decide

theorem min_tblgen.lookup_some_ne_empty (b g : String)
    (h : min_tblgen.exactCases.lookup b = some g) : g ≠ "" := by
  obtain ⟨l₁, l₂, hl, _⟩ := List.lookup_eq_some_iff.mp h
  have hm : (b, g) ∈ min_tblgen.exactCases := by
    rw [hl]
    simp
  exact min_tblgen.exactCases_snd_ne_empty (b, g) hm

theorem min_tblgen_outToGenerator_unrecognized (ctx : android.ModuleContext) (out : String)
    (h : min_tblgen.recognized (filepath.Base out) = false) :
    min_tblgen_outToGenerator ctx out =
      (ctx.ModuleErrorf "couldn't map output file %q to a generator" [filepath.Base out], "") := by
  unfold min_tblgen.recognized at h
  rw [Bool.or_eq_false_iff] at h
  have h1 : min_tblgen.exactCases.lookup (filepath.Base out) = none :=
    (min_tblgen.lookup_eq_none_iff _).mpr (by simpa using h.1)
  rw [min_tblgen_outToGenerator_eq_lookup, h1]
  simp [h.2]

theorem min_tblgen_outToGenerator_recognized (ctx : android.ModuleContext) (out : String)
    (h : min_tblgen.recognized (filepath.Base out) = true) :
    (min_tblgen_outToGenerator ctx out).1 = ctx ∧ (min_tblgen_outToGenerator ctx out).2 ≠ "" := by
  rw [min_tblgen_outToGenerator_eq_lookup]
  cases hl : min_tblgen.exactCases.lookup (filepath.Base out) with
  | some g => exact ⟨rfl, min_tblgen.lookup_some_ne_empty _ g hl⟩
  | none =>
    have hn : filepath.Base out ∉ min_tblgen.exactNames := (min_tblgen.lookup_eq_none_iff _).mp hl
    unfold min_tblgen.recognized at h
    have hs : strings.HasSuffix (filepath.Base out) min_tblgen.targetParserDef = true := by
      simpa [hn] using h
    simp only [hs, if_true]
    exact ⟨trivial, by decide⟩

theorem min_tblgen_outToGenerator_fst (ctx : android.ModuleContext) (out : String) :
    (min_tblgen_outToGenerator ctx out).1 =
      if min_tblgen.recognized (filepath.Base out) then ctx
      else ctx.ModuleErrorf "couldn't map output file %q to a generator" [filepath.Base out] := by
  cases h : min_tblgen.recognized (filepath.Base out) with
  | true => simpa using (min_tblgen_outToGenerator_recognized ctx out h).1
  | false => simp [min_tblgen_outToGenerator_unrecognized ctx out h]

theorem min_tblgen_outToGenerator_snd (ctx ctx' : android.ModuleContext) (out : String) :
    (min_tblgen_outToGenerator ctx out).2 = (min_tblgen_outToGenerator ctx' out).2 := by
  rw [min_tblgen_outToGenerator_eq_lookup, min_tblgen_outToGenerator_eq_lookup]
  cases min_tblgen.exactCases.lookup (filepath.Base out) with
  | some g => rfl
  | none => simp only []; split <;> rfl

/-! ## The loop of `GenerateAndroidBuildActions` -/

theorem min_tblgen.buildOutput_eq (input : android.Path) (incl : List String) (t : min_tblgen)
    (ctx : android.ModuleContext) (o : String) :
    min_tblgen.buildOutput input incl (t, ctx) o =
      ({ t with generatedHeaders := t.generatedHeaders ++ [ctx.pathForModuleGen o] },
       { ctx with
          builds := ctx.builds ++
            [{ Rule := min_tblgenRule, Input := input, Output := ctx.pathForModuleGen o,
               Args := [("includes", strings.Join incl " "),
                        ("generator", (min_tblgen_outToGenerator ctx o).2)] }]
          errs := ctx.errs ++
            (if min_tblgen.recognized (filepath.Base o) then []
             else [min_tblgen.unmapped (filepath.Base o)]) }) := by
  unfold min_tblgen.buildOutput
  simp only [min_tblgen_outToGenerator_fst]
  cases min_tblgen.recognized (filepath.Base o) <;>
    simp [android.ModuleContext.ModuleBuild, android.ModuleContext.ModuleErrorf,
      android.PathForModuleGen, min_tblgen.unmapped]

theorem min_tblgen.foldl_buildOutput (input : android.Path) (incl : List String)
    (outs : List String) (t : min_tblgen) (ctx : android.ModuleContext) :
    outs.foldl (min_tblgen.buildOutput input incl) (t, ctx) =
      ({ t with generatedHeaders := t.generatedHeaders ++ outs.map ctx.pathForModuleGen },
       { ctx with
          builds := ctx.builds ++ outs.map (fun o =>
            { Rule := min_tblgenRule, Input := input, Output := ctx.pathForModuleGen o,
              Args := [("includes", strings.Join incl " "),
                       ("generator", (min_tblgen_outToGenerator ctx o).2)] })
          errs := ctx.errs ++
            (outs.filter (fun o => !min_tblgen.recognized (filepath.Base o))).map
              (fun o => min_tblgen.unmapped (filepath.Base o)) }) := by
  induction outs generalizing t ctx with
  | nil => simp
  | cons o os ih =>
    rw [List.foldl_cons, min_tblgen.buildOutput_eq, ih]
    have hs : ∀ (c : android.ModuleContext) (x : String),
        (min_tblgen_outToGenerator c x).2 = (min_tblgen_outToGenerator ctx x).2 :=
      fun c x => min_tblgen_outToGenerator_snd c ctx x
    cases hr : min_tblgen.recognized (filepath.Base o) <;>
      simp [hs, List.filter_cons, hr]

theorem min_tblgen.GenerateAndroidBuildActions_eq (t : min_tblgen) (ctx : android.ModuleContext) :
    t.GenerateAndroidBuildActions ctx =
      ({ t with
          generatedHeaders := t.generatedHeaders ++ t.properties.Outs.map ctx.pathForModuleGen
          exportedHeaderDirs := t.exportedHeaderDirs ++ [ctx.pathForModuleGen ""] },
       { ctx with
          builds := ctx.builds ++ t.properties.Outs.map (min_tblgen.action t ctx)
          errs := ctx.errs ++
            (t.properties.Outs.filter (fun o => !min_tblgen.recognized (filepath.Base o))).map
              (fun o => min_tblgen.unmapped (filepath.Base o)) }) := by
  unfold min_tblgen.GenerateAndroidBuildActions
  simp only [min_tblgen.foldl_buildOutput]
  rfl

/-! ## More on `filepath.Base` and the suffix case -/

theorem filepath.Base_trailing_slashes (l : List Char) (p : String) (hl : ∀ c ∈ l, c = '/')
    (h : ∃ c ∈ p.data, c ≠ '/') : filepath.Base (p ++ String.mk l) = filepath.Base p := by
  induction l generalizing p with
  | nil =>
    have e : p ++ String.mk [] = p := by
      apply String.ext
      simp
    rw [e]
  | cons c l ih =>
    have hc : c = '/' := hl c (List.mem_cons_self _ _)
    have e : p ++ String.mk (c :: l) = (p ++ "/") ++ String.mk l := by
      apply String.ext
      simp [hc]
    have h2 : ∃ x ∈ (p ++ "/").data, x ≠ '/' := by
      obtain ⟨x, hx, hne⟩ := h
      exact ⟨x, by simp [hx], hne⟩
    rw [e, ih (p ++ "/") (fun x hx => hl x (List.mem_cons_of_mem _ hx)) h2,
      filepath.Base_trailing p h]

theorem filepath.Base_dir_element (d n : String) (hn : n.data ≠ [])
    (h : ∀ c ∈ n.data, c ≠ '/') : filepath.Base (d ++ "/" ++ n) = n := by
  rw [filepath.Base_data_append (d ++ "/") n hn h]
  apply String.ext
  have : (d ++ "/").data = d.data ++ ['/'] := by simp
  rw [this, List.rtakeWhile_concat_neg]
  · simp
  · simp [os.IsPathSeparator]

theorem strings.HasSuffix_append (q : List Char) (s : String) :
    strings.HasSuffix (String.mk (q ++ s.data)) s = true := by
  unfold strings.HasSuffix
  simp

theorem min_tblgen.exactNames_not_targetParserDef :
    ∀ n ∈ min_tblgen.exactNames, strings.HasSuffix n min_tblgen.targetParserDef = false := by
  decide

theorem min_tblgen.exactNames_elements :
    ∀ n ∈ min_tblgen.exactNames, n.data ≠ [] ∧ n.data.all (fun c => c != '/') = true := by
  decide

theorem min_tblgen_outToGenerator_targetParserDef (ctx : android.ModuleContext) (p : String) :
    min_tblgen_outToGenerator ctx (p ++ min_tblgen.targetParserDef) =
      (ctx, "-gen-riscv-target-def") := by
  have hb := filepath.Base_data_append p min_tblgen.targetParserDef (by decide) (by decide)
  have hs := strings.HasSuffix_append
    (p.data.rtakeWhile (fun c => !os.IsPathSeparator c)) min_tblgen.targetParserDef
  rw [← hb] at hs
  have hn : filepath.Base (p ++ min_tblgen.targetParserDef) ∉ min_tblgen.exactNames := by
    intro hm
    have := min_tblgen.exactNames_not_targetParserDef _ hm
    rw [hs] at this
    exact Bool.noConfusion this
  rw [min_tblgen_outToGenerator_eq_lookup, (min_tblgen.lookup_eq_none_iff _).mpr hn]
  simp [hs]

theorem filepath.Base_all_slashes (p : String) (h : ∀ c ∈ p.data, c = '/') :
    filepath.Base p = "." ∨ filepath.Base p = "/" := by
  unfold filepath.Base
  by_cases h1 : p = ""
  · simp [h1]
  · have hd : p.data.rdropWhile os.IsPathSeparator = [] := by
      rw [List.rdropWhile_eq_nil_iff]
      intro c hc
      simp [os.IsPathSeparator, h c hc]
    simp [h1, hd, List.rtakeWhile]

theorem min_tblgen_outToGenerator_congr (ctx : android.ModuleContext) (a b : String)
    (h : filepath.Base a = filepath.Base b) :
    min_tblgen_outToGenerator ctx a = min_tblgen_outToGenerator ctx b := by
  rw [min_tblgen_outToGenerator_eq_lookup, min_tblgen_outToGenerator_eq_lookup, h]

theorem android.ModuleContext.ModuleErrorf_ne (ctx : android.ModuleContext) (format : String)
    (args : List String) : ctx.ModuleErrorf format args ≠ ctx := by
  intro h
  have := congrArg (fun c => c.errs.length) h
  simp [android.ModuleContext.ModuleErrorf] at this

theorem min_tblgen_outToGenerator_all_slashes (ctx : android.ModuleContext) (p : String)
    (h : ∀ c ∈ p.data, c = '/') :
    (min_tblgen_outToGenerator ctx p).2 = "" ∧ (min_tblgen_outToGenerator ctx p).1 ≠ ctx := by
  rcases filepath.Base_all_slashes p h with hb | hb
  · have e : min_tblgen_outToGenerator ctx p = min_tblgen_outToGenerator ctx "." :=
      min_tblgen_outToGenerator_congr ctx p "." (by rw [hb]; rfl)
    rw [e]
    exact ⟨rfl, android.ModuleContext.ModuleErrorf_ne ctx _ _⟩
  · have e : min_tblgen_outToGenerator ctx p = min_tblgen_outToGenerator ctx "/" :=
      min_tblgen_outToGenerator_congr ctx p "/" (by rw [hb]; rfl)
    rw [e]
    exact ⟨rfl, android.ModuleContext.ModuleErrorf_ne ctx _ _⟩

/-! ## The classifier: claims -/

/-- C1: every per-architecture intrinsics header of the catalog is mapped, with
no error (the context is returned unchanged), to
"-gen-intrinsic-enums -intrinsic-prefix=" followed by the short name of the
architecture. -/
theorem min_tblgen_outToGenerator_arch_intrinsics (ctx : android.ModuleContext) :
    min_tblgen_outToGenerator ctx "IntrinsicsAArch64.h" =
        (ctx, "-gen-intrinsic-enums -intrinsic-prefix=" ++ "aarch64") ∧
    min_tblgen_outToGenerator ctx "IntrinsicsAMDGPU.h" =
        (ctx, "-gen-intrinsic-enums -intrinsic-prefix=" ++ "amdgcn") ∧
    min_tblgen_outToGenerator ctx "IntrinsicsARM.h" =
        (ctx, "-gen-intrinsic-enums -intrinsic-prefix=" ++ "arm") ∧
    min_tblgen_outToGenerator ctx "IntrinsicsBPF.h" =
        (ctx, "-gen-intrinsic-enums -intrinsic-prefix=" ++ "bpf") ∧
    min_tblgen_outToGenerator ctx "IntrinsicsDirectX.h" =
        (ctx, "-gen-intrinsic-enums -intrinsic-prefix=" ++ "dx") ∧
    min_tblgen_outToGenerator ctx "IntrinsicsHexagon.h" =
        (ctx, "-gen-intrinsic-enums -intrinsic-prefix=" ++ "hexagon") ∧
    min_tblgen_outToGenerator ctx "IntrinsicsLoongArch.h" =
        (ctx, "-gen-intrinsic-enums -intrinsic-prefix=" ++ "loongarch") ∧
    min_tblgen_outToGenerator ctx "IntrinsicsMips.h" =
        (ctx, "-gen-intrinsic-enums -intrinsic-prefix=" ++ "mips") ∧
    min_tblgen_outToGenerator ctx "IntrinsicsNVPTX.h" =
        (ctx, "-gen-intrinsic-enums -intrinsic-prefix=" ++ "nvvm") ∧
    min_tblgen_outToGenerator ctx "IntrinsicsPowerPC.h" =
        (ctx, "-gen-intrinsic-enums -intrinsic-prefix=" ++ "ppc") ∧
    min_tblgen_outToGenerator ctx "IntrinsicsR600.h" =
        (ctx, "-gen-intrinsic-enums -intrinsic-prefix=" ++ "r600") ∧
    min_tblgen_outToGenerator ctx "IntrinsicsRISCV.h" =
        (ctx, "-gen-intrinsic-enums -intrinsic-prefix=" ++ "riscv") ∧
    min_tblgen_outToGenerator ctx "IntrinsicsS390.h" =
        (ctx, "-gen-intrinsic-enums -intrinsic-prefix=" ++ "s390") ∧
    min_tblgen_outToGenerator ctx "IntrinsicsSPIRV.h" =
        (ctx, "-gen-intrinsic-enums -intrinsic-prefix=" ++ "spv") ∧
    min_tblgen_outToGenerator ctx "IntrinsicsWebAssembly.h" =
        (ctx, "-gen-intrinsic-enums -intrinsic-prefix=" ++ "wasm") ∧
    min_tblgen_outToGenerator ctx "IntrinsicsX86.h" =
        (ctx, "-gen-intrinsic-enums -intrinsic-prefix=" ++ "x86") ∧
    min_tblgen_outToGenerator ctx "IntrinsicsXCore.h" =
        (ctx, "-gen-intrinsic-enums -intrinsic-prefix=" ++ "xcore") ∧
    min_tblgen_outToGenerator ctx "IntrinsicsVE.h" =
        (ctx, "-gen-intrinsic-enums -intrinsic-prefix=" ++ "ve") := by
  refine ⟨?_, ?_, ?_, ?_, ?_, ?_, ?_, ?_, ?_, ?_, ?_, ?_, ?_, ?_, ?_, ?_, ?_, ?_⟩ <;> rfl

/-- C2: the parameterless catalog names are mapped to the mode token alone, with
no error: "Attributes.inc" and "AttributesCompatFunc.inc" to "-gen-attrs",
"IntrinsicEnums.inc" to "-gen-intrinsic-enums", "IntrinsicImpl.inc" to
"-gen-intrinsic-impl" and "GenVT.inc" to "--gen-vt". -/
theorem min_tblgen_outToGenerator_parameterless (ctx : android.ModuleContext) :
    min_tblgen_outToGenerator ctx "Attributes.inc" = (ctx, "-gen-attrs") ∧
    min_tblgen_outToGenerator ctx "AttributesCompatFunc.inc" = (ctx, "-gen-attrs") ∧
    min_tblgen_outToGenerator ctx "IntrinsicEnums.inc" = (ctx, "-gen-intrinsic-enums") ∧
    min_tblgen_outToGenerator ctx "IntrinsicImpl.inc" = (ctx, "-gen-intrinsic-impl") ∧
    min_tblgen_outToGenerator ctx "GenVT.inc" = (ctx, "--gen-vt") := by
  refine ⟨?_, ?_, ?_, ?_, ?_⟩ <;> rfl

/-- C3: for both directive dialects the declaration file is mapped to
"--gen-directive-decl" and the implementation file to "--gen-directive-impl",
with no error; the two dialects get the same result for the same form. -/
theorem min_tblgen_outToGenerator_directives (ctx : android.ModuleContext) :
    min_tblgen_outToGenerator ctx "ACC.h.inc" = (ctx, "--gen-directive-decl") ∧
    min_tblgen_outToGenerator ctx "OMP.h.inc" = (ctx, "--gen-directive-decl") ∧
    min_tblgen_outToGenerator ctx "ACC.inc" = (ctx, "--gen-directive-impl") ∧
    min_tblgen_outToGenerator ctx "OMP.inc" = (ctx, "--gen-directive-impl") ∧
    min_tblgen_outToGenerator ctx "ACC.h.inc" = min_tblgen_outToGenerator ctx "OMP.h.inc" ∧
    min_tblgen_outToGenerator ctx "ACC.inc" = min_tblgen_outToGenerator ctx "OMP.inc" ∧
    (min_tblgen_outToGenerator ctx "ACC.h.inc").2 ≠ (min_tblgen_outToGenerator ctx "ACC.inc").2 := by
  refine ⟨rfl, rfl, rfl, rfl, rfl, rfl, ?_⟩
  show ("--gen-directive-decl" : String) ≠ "--gen-directive-impl"
  decide

/-- C4: the classifier fails closed.  It records the error (for the base name)
and returns the empty string exactly when the base name is none of the 27 exact
catalog names and does not end in "RISCVTargetParserDef.inc"; it records no
error and returns a non-empty string exactly when the base name is recognized.
In particular "Unknown.inc" fails. -/
theorem min_tblgen_outToGenerator_fails_closed (ctx : android.ModuleContext) (out : String) :
    (((min_tblgen_outToGenerator ctx out).1 =
          ctx.ModuleErrorf "couldn't map output file %q to a generator" [filepath.Base out] ∧
        (min_tblgen_outToGenerator ctx out).2 = "") ↔
      (filepath.Base out ∉ min_tblgen.exactNames ∧
        strings.HasSuffix (filepath.Base out) "RISCVTargetParserDef.inc" = false)) ∧
    (((min_tblgen_outToGenerator ctx out).1 = ctx ∧ (min_tblgen_outToGenerator ctx out).2 ≠ "") ↔
      (filepath.Base out ∈ min_tblgen.exactNames ∨
        strings.HasSuffix (filepath.Base out) "RISCVTargetParserDef.inc" = true)) ∧
    (ctx.ModuleErrorf "couldn't map output file %q to a generator" [filepath.Base out]).errs =
      ctx.errs ++ [{ format := "couldn't map output file %q to a generator",
                     args := [filepath.Base out] }] ∧
    min_tblgen.exactNames =
      [ "Attributes.inc", "AttributesCompatFunc.inc", "IntrinsicEnums.inc", "IntrinsicImpl.inc",
        "IntrinsicsAArch64.h", "IntrinsicsAMDGPU.h", "IntrinsicsARM.h", "IntrinsicsBPF.h",
        "IntrinsicsDirectX.h", "IntrinsicsHexagon.h", "IntrinsicsLoongArch.h", "IntrinsicsMips.h",
        "IntrinsicsNVPTX.h", "IntrinsicsPowerPC.h", "IntrinsicsR600.h", "IntrinsicsRISCV.h",
        "IntrinsicsS390.h", "IntrinsicsSPIRV.h", "IntrinsicsWebAssembly.h", "IntrinsicsX86.h",
        "IntrinsicsXCore.h", "IntrinsicsVE.h", "ACC.h.inc", "ACC.inc", "OMP.h.inc", "OMP.inc",
        "GenVT.inc" ] ∧
    min_tblgen.exactNames.length = 27 ∧
    min_tblgen_outToGenerator ctx "Unknown.inc" =
      (ctx.ModuleErrorf "couldn't map output file %q to a generator" ["Unknown.inc"], "") := by
  have hrec : min_tblgen.recognized (filepath.Base out) = true ↔
      (filepath.Base out ∈ min_tblgen.exactNames ∨
        strings.HasSuffix (filepath.Base out) "RISCVTargetParserDef.inc" = true) := by
    simp [min_tblgen.recognized, min_tblgen.targetParserDef]
  refine ⟨?_, ?_, rfl, rfl, rfl, rfl⟩
  · constructor
    · rintro ⟨_, h2⟩
      cases hr : min_tblgen.recognized (filepath.Base out) with
      | true => exact absurd h2 (min_tblgen_outToGenerator_recognized ctx out hr).2
      | false =>
        have := mt hrec.mpr (by simp [hr])
        simpa [not_or] using this
    · rintro ⟨h1, h2⟩
      have hr : min_tblgen.recognized (filepath.Base out) = false := by
        cases hr : min_tblgen.recognized (filepath.Base out) with
        | false => rfl
        | true =>
          rcases hrec.mp hr with h | h
          · exact absurd h h1
          · rw [h2] at h
            exact Bool.noConfusion h
      rw [min_tblgen_outToGenerator_unrecognized ctx out hr]
      exact ⟨rfl, rfl⟩
  · constructor
    · rintro ⟨h1, _⟩
      cases hr : min_tblgen.recognized (filepath.Base out) with
      | true => exact hrec.mp hr
      | false =>
        rw [min_tblgen_outToGenerator_unrecognized ctx out hr] at h1
        exact absurd h1 (android.ModuleContext.ModuleErrorf_ne ctx _ _)
    · intro h
      exact min_tblgen_outToGenerator_recognized ctx out (hrec.mpr h)

/-- Witness for C4: an unknown name below a directory fails in the sample
context. -/
theorem min_tblgen_outToGenerator_fails_closed_witness :
    (min_tblgen_outToGenerator sampleCtx "include/llvm/IR/Unknown.inc").1 =
        sampleCtx.ModuleErrorf "couldn't map output file %q to a generator"
          [filepath.Base "include/llvm/IR/Unknown.inc"] ∧
      (min_tblgen_outToGenerator sampleCtx "include/llvm/IR/Unknown.inc").2 = "" :=
  (min_tblgen_outToGenerator_fails_closed sampleCtx "include/llvm/IR/Unknown.inc").1.mpr
    ⟨by decide, by decide⟩

/-- C5: for every prefix `p` (empty or not, with or without directory
separators) the name `p ++ "RISCVTargetParserDef.inc"` is mapped to
"-gen-riscv-target-def" with no error, so any two names with that suffix are
classified identically. -/
theorem min_tblgen_outToGenerator_suffix_family (ctx : android.ModuleContext) (p q : String) :
    min_tblgen_outToGenerator ctx (p ++ "RISCVTargetParserDef.inc") =
        (ctx, "-gen-riscv-target-def") ∧
    min_tblgen_outToGenerator ctx (p ++ "RISCVTargetParserDef.inc") =
        min_tblgen_outToGenerator ctx (q ++ "RISCVTargetParserDef.inc") ∧
    min_tblgen_outToGenerator ctx "RISCVTargetParserDef.inc" = (ctx, "-gen-riscv-target-def") ∧
    min_tblgen_outToGenerator ctx "FooRISCVTargetParserDef.inc" =
        min_tblgen_outToGenerator ctx "BarRISCVTargetParserDef.inc" := by
  have h := min_tblgen_outToGenerator_targetParserDef ctx
  simp only [min_tblgen.targetParserDef] at h
  exact ⟨h p, (h p).trans (h q).symm, h "", (h "Foo").trans (h "Bar").symm⟩

/-- C6: classification depends only on the base name.  The classifier gives the
same result and the same context on `p` and on `filepath.Base p`; a catalog
name below any directory prefix is classified like the bare name; trailing
separators do not change the returned string nor whether an error is recorded
(and change nothing at all when the path has a character other than the
separator); the empty string is normalized to "." and is unrecognized. -/
theorem min_tblgen_outToGenerator_base_only (ctx : android.ModuleContext) :
    (∀ p : String, min_tblgen_outToGenerator ctx p =
        min_tblgen_outToGenerator ctx (filepath.Base p)) ∧
    (∀ d n : String, n ∈ min_tblgen.exactNames →
        min_tblgen_outToGenerator ctx (d ++ "/" ++ n) = min_tblgen_outToGenerator ctx n) ∧
    (∀ p t : String, (∀ c ∈ t.data, c = '/') → (∃ c ∈ p.data, c ≠ '/') →
        min_tblgen_outToGenerator ctx (p ++ t) = min_tblgen_outToGenerator ctx p) ∧
    (∀ p : String,
        (min_tblgen_outToGenerator ctx (p ++ "/")).2 = (min_tblgen_outToGenerator ctx p).2 ∧
        ((min_tblgen_outToGenerator ctx (p ++ "/")).1 = ctx ↔
          (min_tblgen_outToGenerator ctx p).1 = ctx)) ∧
    filepath.Base "" = "." ∧
    min_tblgen_outToGenerator ctx "" =
      (ctx.ModuleErrorf "couldn't map output file %q to a generator" ["."], "") := by
  refine ⟨?_, ?_, ?_, ?_, rfl, rfl⟩
  · intro p
    exact min_tblgen_outToGenerator_congr ctx p _ (filepath.Base_idem p).symm
  · intro d n hn
    have he := min_tblgen.exactNames_elements n hn
    have hc : ∀ c ∈ n.data, c ≠ '/' := by
      intro c hc
      have := List.all_eq_true.mp he.2 c hc
      simpa using this
    apply min_tblgen_outToGenerator_congr
    rw [filepath.Base_dir_element d n he.1 hc, filepath.Base_of_element n he.1 hc]
  · intro p t ht hp
    apply min_tblgen_outToGenerator_congr
    exact filepath.Base_trailing_slashes t.data p ht hp
  · intro p
    by_cases hp : ∃ c ∈ p.data, c ≠ '/'
    · rw [min_tblgen_outToGenerator_congr ctx (p ++ "/") p (filepath.Base_trailing p hp)]
      exact ⟨rfl, Iff.rfl⟩
    · have hall : ∀ c ∈ p.data, c = '/' := by
        intro c hc
        by_contra hne
        exact hp ⟨c, hc, hne⟩
      have hall2 : ∀ c ∈ (p ++ "/").data, c = '/' := by
        intro c hc
        simp at hc
        rcases hc with hc | hc
        · exact hall c hc
        · exact hc
      have h1 := min_tblgen_outToGenerator_all_slashes ctx p hall
      have h2 := min_tblgen_outToGenerator_all_slashes ctx (p ++ "/") hall2
      exact ⟨h2.1.trans h1.1.symm, ⟨fun h => absurd h h2.2, fun h => absurd h h1.2⟩⟩

/-- Witness for C6: a catalog name below a directory, and a path with trailing
separators, in the sample context. -/
theorem min_tblgen_outToGenerator_base_only_witness :
    min_tblgen_outToGenerator sampleCtx ("include/llvm/IR" ++ "/" ++ "Attributes.inc") =
        min_tblgen_outToGenerator sampleCtx "Attributes.inc" ∧
      min_tblgen_outToGenerator sampleCtx ("gen/GenVT.inc" ++ "//") =
        min_tblgen_outToGenerator sampleCtx "gen/GenVT.inc" :=
  ⟨(min_tblgen_outToGenerator_base_only sampleCtx).2.1 "include/llvm/IR" "Attributes.inc"
      (by decide),
   (min_tblgen_outToGenerator_base_only sampleCtx).2.2.1 "gen/GenVT.inc" "//"
      (by decide) ⟨'g', by decide, by decide⟩⟩

/-! ## The registrar: claims -/

/-- C7: for every outputs list, recognized or not, `GenerateAndroidBuildActions`
registers exactly `len(outputs)` build actions through `ctx.ModuleBuild`, after
the ones the context already holds.  With no outputs it registers nothing and a
fresh module publishes an empty list of generated outputs; with
["Attributes.inc", "IntrinsicEnums.inc"] it registers exactly two. -/
theorem GenerateAndroidBuildActions_registers_one_per_output (t : min_tblgen)
    (ctx : android.ModuleContext) (input : String) :
    (t.GenerateAndroidBuildActions ctx).2.builds.length =
        ctx.builds.length + t.properties.Outs.length ∧
    (t.GenerateAndroidBuildActions ctx).2.builds.take ctx.builds.length = ctx.builds ∧
    ((t.GenerateAndroidBuildActions ctx).2.builds.drop ctx.builds.length).length =
        t.properties.Outs.length ∧
    ((llvmMinTblgenFactory { In := input, Outs := [] }).GenerateAndroidBuildActions ctx).2.builds =
        ctx.builds ∧
    ((llvmMinTblgenFactory { In := input, Outs := [] }).GenerateAndroidBuildActions
        ctx).1.GeneratedDeps = [] ∧
    (((llvmMinTblgenFactory
        { In := input, Outs := ["Attributes.inc", "IntrinsicEnums.inc"] }).GenerateAndroidBuildActions
        ctx).2.builds.drop ctx.builds.length).length = 2 := by
  simp [min_tblgen.GenerateAndroidBuildActions_eq, llvmMinTblgenFactory,
    min_tblgen.GeneratedDeps]

/-- C8, counterexample: in the sample module the first unrecognized name is
"Unknown.inc" at index 1, yet three build actions are registered and three
output paths are published, "Unknown.inc" and the later "GenVT.inc" included;
hence registration does not stop at the first unrecognized entry. -/
theorem GenerateAndroidBuildActions_stops_counterexample :
    (sampleModule.properties.Outs.findIdx
        (fun o => !min_tblgen.recognized (filepath.Base o)) = 1 ∧
      (sampleModule.GenerateAndroidBuildActions sampleCtx).2.builds.map (fun b => b.Output) =
        [⟨"out/gen/Attributes.inc"⟩, ⟨"out/gen/Unknown.inc"⟩, ⟨"out/gen/GenVT.inc"⟩] ∧
      (sampleModule.GenerateAndroidBuildActions sampleCtx).1.generatedHeaders =
        [⟨"out/gen/Attributes.inc"⟩, ⟨"out/gen/Unknown.inc"⟩, ⟨"out/gen/GenVT.inc"⟩]) ∧
    ¬ (∀ (t : min_tblgen) (ctx : android.ModuleContext) (k : Nat),
        k < t.properties.Outs.length →
        t.properties.Outs.findIdx (fun o => !min_tblgen.recognized (filepath.Base o)) = k →
        (t.GenerateAndroidBuildActions ctx).2.builds =
            ctx.builds ++ (t.properties.Outs.take k).map (min_tblgen.action t ctx) ∧
          (t.GenerateAndroidBuildActions ctx).1.generatedHeaders =
            t.generatedHeaders ++ (t.properties.Outs.take k).map (android.PathForModuleGen ctx)) := by
  have h1 : sampleModule.properties.Outs.findIdx
      (fun o => !min_tblgen.recognized (filepath.Base o)) = 1 := by decide
  have h2 : (sampleModule.GenerateAndroidBuildActions sampleCtx).1.generatedHeaders =
      [⟨"out/gen/Attributes.inc"⟩, ⟨"out/gen/Unknown.inc"⟩, ⟨"out/gen/GenVT.inc"⟩] := by
    rw [min_tblgen.GenerateAndroidBuildActions_eq]
    rfl
  have h3 : (sampleModule.GenerateAndroidBuildActions sampleCtx).2.builds.map (fun b => b.Output) =
      [⟨"out/gen/Attributes.inc"⟩, ⟨"out/gen/Unknown.inc"⟩, ⟨"out/gen/GenVT.inc"⟩] := by
    rw [min_tblgen.GenerateAndroidBuildActions_eq]
    rfl
  refine ⟨⟨h1, h3, h2⟩, ?_⟩
  intro h
  have h4 := (h sampleModule sampleCtx 1 (by decide) h1).2
  rw [h2] at h4
  exact absurd (congrArg List.length h4) (by decide)

/-- C8, amended: an unrecognized entry does not stop registration.  When
`outputs[k]` is unrecognized, the build actions registered are still those for
all of `outputs`, in order; the one for `outputs[k]` has the output path
allocated for `outputs[k]` and an empty "generator" argument, and an output
path is published for every entry. -/
theorem GenerateAndroidBuildActions_continues_after_unrecognized (t : min_tblgen)
    (ctx : android.ModuleContext) (k : Nat) (hk : k < t.properties.Outs.length)
    (hu : min_tblgen.recognized (filepath.Base (t.properties.Outs.get ⟨k, hk⟩)) = false) :
    (t.GenerateAndroidBuildActions ctx).2.builds =
        ctx.builds ++ t.properties.Outs.map (min_tblgen.action t ctx) ∧
    (t.GenerateAndroidBuildActions ctx).2.builds[ctx.builds.length + k]? =
        some
          { Rule := min_tblgenRule
            Input := android.PathForModuleSrc ctx t.properties.In
            Output := android.PathForModuleGen ctx (t.properties.Outs.get ⟨k, hk⟩)
            Args :=
              [ ("includes",
                  strings.Join
                    (min_tblgen.includes ctx (android.PathForModuleSrc ctx t.properties.In)) " "),
                ("generator", "") ] } ∧
    (t.GenerateAndroidBuildActions ctx).1.generatedHeaders =
        t.generatedHeaders ++ t.properties.Outs.map (android.PathForModuleGen ctx) := by
  rw [min_tblgen.GenerateAndroidBuildActions_eq]
  refine ⟨rfl, ?_, rfl⟩
  have hg : (min_tblgen_outToGenerator ctx (t.properties.Outs.get ⟨k, hk⟩)).2 = "" := by
    rw [min_tblgen_outToGenerator_unrecognized ctx _ hu]
  simp only []
  rw [List.getElem?_append_right (Nat.le_add_right _ _), Nat.add_sub_cancel_left,
    List.getElem?_map, List.getElem?_eq_getElem hk]
  simp only [List.get_eq_getElem] at hg ⊢
  simp only [Option.map_some', min_tblgen.action, hg]

/-- Witness for C8 (amended): the sample module, whose entry 1 is
unrecognized. -/
theorem GenerateAndroidBuildActions_continues_after_unrecognized_witness :
    (sampleModule.GenerateAndroidBuildActions sampleCtx).2.builds =
        sampleCtx.builds ++ sampleModule.properties.Outs.map (min_tblgen.action sampleModule sampleCtx) ∧
    (sampleModule.GenerateAndroidBuildActions sampleCtx).2.builds[sampleCtx.builds.length + 1]? =
        some
          { Rule := min_tblgenRule
            Input := android.PathForModuleSrc sampleCtx sampleModule.properties.In
            Output := android.PathForModuleGen sampleCtx
              (sampleModule.properties.Outs.get ⟨1, by decide⟩)
            Args :=
              [ ("includes",
                  strings.Join
                    (min_tblgen.includes sampleCtx
                      (android.PathForModuleSrc sampleCtx sampleModule.properties.In)) " "),
                ("generator", "") ] } ∧
    (sampleModule.GenerateAndroidBuildActions sampleCtx).1.generatedHeaders =
        sampleModule.generatedHeaders ++
          sampleModule.properties.Outs.map (android.PathForModuleGen sampleCtx) :=
  GenerateAndroidBuildActions_continues_after_unrecognized sampleModule sampleCtx 1
    (by decide) (by decide)

/-- C9: the errors `GenerateAndroidBuildActions` records through the classifier
are exactly one per unrecognized entry of `outputs`, in list order, each
carrying that entry's base name; so on a context without errors the error
list is non-empty exactly when some entry is unrecognized, and one unknown name
among valid names leaves an error. -/
theorem GenerateAndroidBuildActions_reports_each_unrecognized (t : min_tblgen)
    (ctx : android.ModuleContext) :
    (t.GenerateAndroidBuildActions ctx).2.errs =
        ctx.errs ++
          (t.properties.Outs.filter (fun o => !min_tblgen.recognized (filepath.Base o))).map
            (fun o =>
              { format := "couldn't map output file %q to a generator"
                args := [filepath.Base o] }) ∧
    (t.GenerateAndroidBuildActions ctx).2.errs.length =
        ctx.errs.length +
          t.properties.Outs.countP (fun o => !min_tblgen.recognized (filepath.Base o)) ∧
    (ctx.errs = [] →
      ((t.GenerateAndroidBuildActions ctx).2.errs ≠ [] ↔
        ∃ o ∈ t.properties.Outs, min_tblgen.recognized (filepath.Base o) = false)) ∧
    (∀ (pre post : List String) (u : String),
      t.properties.Outs = pre ++ u :: post →
      min_tblgen.recognized (filepath.Base u) = false →
      (t.GenerateAndroidBuildActions ctx).2.errs ≠ []) := by
  have he : (t.GenerateAndroidBuildActions ctx).2.errs =
      ctx.errs ++
        (t.properties.Outs.filter (fun o => !min_tblgen.recognized (filepath.Base o))).map
          (fun o =>
            { format := "couldn't map output file %q to a generator"
              args := [filepath.Base o] }) := by
    rw [min_tblgen.GenerateAndroidBuildActions_eq]
    rfl
  have hne : (∃ o ∈ t.properties.Outs, min_tblgen.recognized (filepath.Base o) = false) →
      (t.GenerateAndroidBuildActions ctx).2.errs ≠ [] := by
    rintro ⟨o, ho, hr⟩ h
    rw [he] at h
    have h2 := (List.append_eq_nil.mp h).2
    rw [List.map_eq_nil_iff, List.filter_eq_nil_iff] at h2
    have := h2 o ho
    simp [hr] at this
  refine ⟨he, ?_, ?_, ?_⟩
  · rw [he, List.length_append, List.length_map, List.countP_eq_length_filter]
  · intro h0
    constructor
    · intro h
      rw [he, h0, List.nil_append] at h
      rw [Ne, List.map_eq_nil_iff, List.filter_eq_nil_iff] at h
      push_neg at h
      obtain ⟨o, ho, hr⟩ := h
      exact ⟨o, ho, by simpa using hr⟩
    · exact hne
  · intro pre post u hs hr
    exact hne ⟨u, by rw [hs]; simp, hr⟩

/-- Witness for C9: the sample module on the sample context, where
"Unknown.inc" sits between two valid names. -/
theorem GenerateAndroidBuildActions_reports_each_unrecognized_witness :
    ((sampleModule.GenerateAndroidBuildActions sampleCtx).2.errs ≠ [] ↔
        ∃ o ∈ sampleModule.properties.Outs, min_tblgen.recognized (filepath.Base o) = false) ∧
      (sampleModule.GenerateAndroidBuildActions sampleCtx).2.errs ≠ [] :=
  ⟨(GenerateAndroidBuildActions_reports_each_unrecognized sampleModule sampleCtx).2.2.1 rfl,
   (GenerateAndroidBuildActions_reports_each_unrecognized sampleModule sampleCtx).2.2.2
      ["Attributes.inc"] ["GenVT.inc"] "Unknown.inc" rfl (by decide)⟩

/-- C10: every build action registered by `GenerateAndroidBuildActions` carries
the same "includes" argument: the four flags "-I <moduleDir>",
"-I external/llvm-project/llvm/include", "-I external/llvm-project/llvm/lib/Target"
and "-I <filepath.Dir of the input path>", joined by single spaces in that
order.  The value is a function of the module directory and the input path
only, so contexts and modules agreeing on those two give the same list. -/
theorem GenerateAndroidBuildActions_includes (t : min_tblgen) (ctx : android.ModuleContext) :
    ((t.GenerateAndroidBuildActions ctx).2.builds.drop ctx.builds.length).map
        (fun b => b.Args.lookup "includes") =
      List.replicate t.properties.Outs.length
        (some (("-I " ++ ctx.ModuleDir) ++ " " ++
          "-I external/llvm-project/llvm/include" ++ " " ++
          "-I external/llvm-project/llvm/lib/Target" ++ " " ++
          ("-I " ++ filepath.Dir (android.PathForModuleSrc ctx t.properties.In).String))) ∧
    min_tblgen.includes ctx (android.PathForModuleSrc ctx t.properties.In) =
      [ "-I " ++ ctx.ModuleDir,
        "-I external/llvm-project/llvm/include",
        "-I external/llvm-project/llvm/lib/Target",
        "-I " ++ filepath.Dir (android.PathForModuleSrc ctx t.properties.In).String ] ∧
    (∀ (t' : min_tblgen) (ctx' : android.ModuleContext),
      ctx'.ModuleDir = ctx.ModuleDir →
      (android.PathForModuleSrc ctx' t'.properties.In).String =
        (android.PathForModuleSrc ctx t.properties.In).String →
      ∀ a ∈ (t'.GenerateAndroidBuildActions ctx').2.builds.drop ctx'.builds.length,
      ∀ b ∈ (t.GenerateAndroidBuildActions ctx).2.builds.drop ctx.builds.length,
        a.Args.lookup "includes" = b.Args.lookup "includes") := by
  have key : ∀ (t : min_tblgen) (ctx : android.ModuleContext),
      ((t.GenerateAndroidBuildActions ctx).2.builds.drop ctx.builds.length).map
          (fun b => b.Args.lookup "includes") =
        List.replicate t.properties.Outs.length
          (some (("-I " ++ ctx.ModuleDir) ++ " " ++
            "-I external/llvm-project/llvm/include" ++ " " ++
            "-I external/llvm-project/llvm/lib/Target" ++ " " ++
            ("-I " ++ filepath.Dir (android.PathForModuleSrc ctx t.properties.In).String))) := by
    intro t ctx
    rw [min_tblgen.GenerateAndroidBuildActions_eq]
    simp only [List.drop_left, List.map_map]
    rw [List.eq_replicate_iff]
    refine ⟨by simp, ?_⟩
    intro x hx
    obtain ⟨o, _, rfl⟩ := List.mem_map.mp hx
    rfl
  refine ⟨key t ctx, rfl, ?_⟩
  intro t' ctx' hd hi a ha b hb
  have ha2 := List.eq_of_mem_replicate
    (by rw [← key t' ctx']; exact List.mem_map_of_mem _ ha)
  have hb2 := List.eq_of_mem_replicate
    (by rw [← key t ctx]; exact List.mem_map_of_mem _ hb)
  rw [ha2, hb2, hd, hi]

/-- Witness for C10: the sample module against a module with the same input and
other outputs, both on the sample context. -/
theorem GenerateAndroidBuildActions_includes_witness :
    ∀ a ∈ ((llvmMinTblgenFactory
          { In := "include/llvm/IR/Attributes.td"
            Outs := ["IntrinsicEnums.inc"] }).GenerateAndroidBuildActions sampleCtx).2.builds.drop
        sampleCtx.builds.length,
    ∀ b ∈ (sampleModule.GenerateAndroidBuildActions sampleCtx).2.builds.drop
        sampleCtx.builds.length,
      a.Args.lookup "includes" = b.Args.lookup "includes" :=
  (GenerateAndroidBuildActions_includes sampleModule sampleCtx).2.2
    (llvmMinTblgenFactory
      { In := "include/llvm/IR/Attributes.td", Outs := ["IntrinsicEnums.inc"] })
    sampleCtx rfl rfl

/-- C11: build actions are registered one per output, in the given order.  The
`i`-th action registered uses the rule `min_tblgenRule`, has the resolved input
of the module as `Input`, the path allocated for `outputs[i]` below the
generated-output root as `Output`, and the string the classifier returns for
`outputs[i]` as "generator" argument (a string that does not depend on the
context the classifier is called with). -/
theorem GenerateAndroidBuildActions_action_per_output (t : min_tblgen)
    (ctx : android.ModuleContext) (i : Nat) (hi : i < t.properties.Outs.length) :
    ((t.GenerateAndroidBuildActions ctx).2.builds.drop ctx.builds.length)[i]? =
        some
          { Rule := min_tblgenRule
            Input := android.PathForModuleSrc ctx t.properties.In
            Output := android.PathForModuleGen ctx (t.properties.Outs.get ⟨i, hi⟩)
            Args :=
              [ ("includes",
                  strings.Join
                    (min_tblgen.includes ctx (android.PathForModuleSrc ctx t.properties.In)) " "),
                ("generator",
                  (min_tblgen_outToGenerator ctx (t.properties.Outs.get ⟨i, hi⟩)).2) ] } ∧
    (∀ ctx' : android.ModuleContext,
      (min_tblgen_outToGenerator ctx' (t.properties.Outs.get ⟨i, hi⟩)).2 =
        (min_tblgen_outToGenerator ctx (t.properties.Outs.get ⟨i, hi⟩)).2) ∧
    ((t.GenerateAndroidBuildActions ctx).2.builds.drop ctx.builds.length).length =
      t.properties.Outs.length := by
  rw [min_tblgen.GenerateAndroidBuildActions_eq]
  simp only [List.drop_left, List.length_map]
  refine ⟨?_, fun ctx' => min_tblgen_outToGenerator_snd ctx' ctx _, trivial⟩
  rw [List.getElem?_map, List.getElem?_eq_getElem hi]
  simp only [List.get_eq_getElem, Option.map_some', min_tblgen.action]

/-- Witness for C11: entry 2 of the sample module on the sample context. -/
theorem GenerateAndroidBuildActions_action_per_output_witness :
    ((sampleModule.GenerateAndroidBuildActions sampleCtx).2.builds.drop
        sampleCtx.builds.length)[2]? =
      some
        { Rule := min_tblgenRule
          Input := ⟨"external/llvm-project/llvm/include/llvm/IR/Attributes.td"⟩
          Output := ⟨"out/gen/GenVT.inc"⟩
          Args :=
            [ ("includes",
                "-I external/llvm-project/llvm -I external/llvm-project/llvm/include " ++
                "-I external/llvm-project/llvm/lib/Target " ++
                "-I external/llvm-project/llvm/include/llvm/IR"),
              ("generator", "--gen-vt") ] } :=
  (GenerateAndroidBuildActions_action_per_output sampleModule sampleCtx 2 (by decide)).1.trans
    (by rfl)

/-- C12: after one evaluation of a fresh module, `generatedHeaders` is the list
of the paths allocated for the outputs, in the same order and of the same
length, entry by entry the `Output` of the build action registered for that
output; `exportedHeaderDirs` has exactly one entry, the generated-output root,
whatever the number of outputs, zero included. -/
theorem GenerateAndroidBuildActions_published (properties : min_tblgenProperties)
    (ctx : android.ModuleContext) (input : String) :
    ((llvmMinTblgenFactory properties).GenerateAndroidBuildActions ctx).1.generatedHeaders =
        properties.Outs.map (android.PathForModuleGen ctx) ∧
    ((llvmMinTblgenFactory properties).GenerateAndroidBuildActions ctx).1.generatedHeaders.length =
        properties.Outs.length ∧
    ((llvmMinTblgenFactory properties).GenerateAndroidBuildActions ctx).1.generatedHeaders =
        (((llvmMinTblgenFactory properties).GenerateAndroidBuildActions ctx).2.builds.drop
          ctx.builds.length).map (fun b => b.Output) ∧
    ((llvmMinTblgenFactory properties).GenerateAndroidBuildActions ctx).1.exportedHeaderDirs =
        [android.PathForModuleGen ctx ""] ∧
    ((llvmMinTblgenFactory { In := input, Outs := [] }).GenerateAndroidBuildActions
        ctx).1.exportedHeaderDirs = [android.PathForModuleGen ctx ""] ∧
    ((llvmMinTblgenFactory { In := input, Outs := [] }).GenerateAndroidBuildActions
        ctx).1.generatedHeaders = [] := by
  simp only [min_tblgen.GenerateAndroidBuildActions_eq, List.drop_left, List.map_map,
    List.length_map]
  refine ⟨rfl, ?_, rfl, rfl, rfl, rfl⟩
  simp [llvmMinTblgenFactory]

/-! ## The command of the rule -/

theorem ninja.lookupVariable_depfile (scope : String → String) (input output : android.Path)
    (I G : String) :
    ninja.lookupVariable scope
        { Rule := min_tblgenRule, Input := input, Output := output,
          Args := [("includes", I), ("generator", G)] } 4 "depfile" =
      some (String.mk (output.String.data ++ ['.', 'd'])) := by
  rfl

theorem ninja.EvaluateCommand_min_tblgenRule (scope : String → String)
    (input output : android.Path) (I G : String) :
    ninja.EvaluateCommand scope
        { Rule := min_tblgenRule, Input := input, Output := output,
          Args := [("includes", I), ("generator", G)] } =
      some (String.mk ((scope "llvmMinTblgen").data ++ ' ' :: (I.data ++ ' ' :: (G.data ++
        ' ' :: '-' :: 'd' :: ' ' :: ((output.String.data ++ ['.', 'd']) ++
          ' ' :: '-' :: 'o' :: ' ' ::
            (output.String.data ++ ' ' :: (input.String.data ++ []))))))) := by
  rfl

/-- C13: the wire format of the generator command.  For a build statement of
`min_tblgenRule` with input `in`, output `out`, include string `I` and
generator string `G`, evaluating the command of the rule gives the tool, then
`I`, then `G`, then "-d" with the dependency file `out ++ ".d"`, then "-o" with
`out`, then `in`, separated by single spaces; this holds for every build action
`GenerateAndroidBuildActions` registers. -/
theorem min_tblgenRule_command_wire (scope : String → String) (input output : android.Path)
    (I G : String) (t : min_tblgen) (ctx : android.ModuleContext) :
    ninja.EvaluateCommand scope
        { Rule := min_tblgenRule, Input := input, Output := output,
          Args := [("includes", I), ("generator", G)] } =
      some (scope "llvmMinTblgen" ++ " " ++ I ++ " " ++ G ++ " -d " ++ (output.String ++ ".d") ++
        " -o " ++ output.String ++ " " ++ input.String) ∧
    ninja.lookupVariable scope
        { Rule := min_tblgenRule, Input := input, Output := output,
          Args := [("includes", I), ("generator", G)] } 4 "depfile" =
      some (output.String ++ ".d") ∧
    ((t.GenerateAndroidBuildActions ctx).2.builds.drop ctx.builds.length).map
        (ninja.EvaluateCommand scope) =
      t.properties.Outs.map (fun o =>
        some (scope "llvmMinTblgen" ++ " " ++
          strings.Join (min_tblgen.includes ctx (android.PathForModuleSrc ctx t.properties.In)) " " ++
          " " ++ (min_tblgen_outToGenerator ctx o).2 ++
          " -d " ++ ((android.PathForModuleGen ctx o).String ++ ".d") ++
          " -o " ++ (android.PathForModuleGen ctx o).String ++
          " " ++ (android.PathForModuleSrc ctx t.properties.In).String)) := by
  have key : ∀ (input output : android.Path) (I G : String),
      ninja.EvaluateCommand scope
          { Rule := min_tblgenRule, Input := input, Output := output,
            Args := [("includes", I), ("generator", G)] } =
        some (scope "llvmMinTblgen" ++ " " ++ I ++ " " ++ G ++ " -d " ++
          (output.String ++ ".d") ++ " -o " ++ output.String ++ " " ++ input.String) := by
    intro input output I G
    rw [ninja.EvaluateCommand_min_tblgenRule]
    congr 1
    apply String.ext
    simp
  refine ⟨key input output I G, ?_, ?_⟩
  · rw [ninja.lookupVariable_depfile]
    congr 1
  · rw [min_tblgen.GenerateAndroidBuildActions_eq]
    simp only [List.drop_left, List.map_map]
    apply List.map_congr_left
    intro o _
    exact key _ _ _ _

/-! ## The rules of the switch, in any order -/

theorem min_tblgen.find?_of_mem_of_pairwise {α : Type} (p : α → Bool) (l : List α) (x : α)
    (hp : l.Pairwise (fun r s => ¬ (p r = true ∧ p s = true))) (hx : x ∈ l) (hpx : p x = true) :
    l.find? p = some x := by
  induction l with
  | nil => cases hx
  | cons a t ih =>
    rw [List.pairwise_cons] at hp
    by_cases ha : p a = true
    · rcases List.mem_cons.mp hx with h | h
      · rw [h, List.find?_cons_of_pos _ ha]
      · exact absurd ⟨ha, hpx⟩ (hp.1 x h)
    · rcases List.mem_cons.mp hx with h | h
      · rw [h] at hpx
        exact absurd hpx ha
      · rw [List.find?_cons_of_neg _ ha]
        exact ih hp.2 h

theorem min_tblgen.find?_perm_of_pairwise {α : Type} (p : α → Bool) (l l' : List α)
    (hp : l.Pairwise (fun r s => ¬ (p r = true ∧ p s = true))) (h : l'.Perm l) :
    l'.find? p = l.find? p := by
  have hp' : l'.Pairwise (fun r s => ¬ (p r = true ∧ p s = true)) :=
    h.symm.pairwise hp (fun hrs hsr => hrs ⟨hsr.2, hsr.1⟩)
  cases hf : l.find? p with
  | none =>
    rw [List.find?_eq_none] at hf ⊢
    exact fun x hx => hf x (h.mem_iff.mp hx)
  | some x =>
    exact min_tblgen.find?_of_mem_of_pairwise p l' x hp'
      (h.mem_iff.mpr (List.mem_of_find?_eq_some hf)) (List.find?_some hf)

theorem min_tblgen.filter_length_le_one_of_pairwise {α : Type} (p : α → Bool) (l : List α)
    (hp : l.Pairwise (fun r s => ¬ (p r = true ∧ p s = true))) :
    (l.filter p).length ≤ 1 := by
  induction l with
  | nil => simp
  | cons a t ih =>
    rw [List.pairwise_cons] at hp
    by_cases ha : p a = true
    · have ht : t.filter p = [] := by
        rw [List.filter_eq_nil_iff]
        exact fun x hx hpx => hp.1 x hx ⟨ha, hpx⟩
      simp [List.filter_cons, ha, ht]
    · simpa [List.filter_cons, ha] using ih hp.2

theorem min_tblgen.exactNames_nodup : min_tblgen.exactNames.Nodup := by
  decide

theorem min_tblgen.rules_pairwise (b : String) :
    min_tblgen.rules.Pairwise
      (fun r s => ¬ ((fun r : min_tblgen.Pattern × String => r.1.holds b) r = true ∧
        (fun r : min_tblgen.Pattern × String => r.1.holds b) s = true)) := by
  unfold min_tblgen.rules
  rw [List.pairwise_append]
  refine ⟨?_, List.pairwise_singleton _ _, ?_⟩
  · rw [List.pairwise_map]
    have hn := min_tblgen.exactNames_nodup
    unfold min_tblgen.exactNames List.Nodup at hn
    rw [List.pairwise_map] at hn
    refine hn.imp ?_
    intro x y hxy hb
    simp only [min_tblgen.Pattern.holds, beq_iff_eq] at hb
    exact hxy (hb.1.symm.trans hb.2)
  · intro r hr s hs hb
    obtain ⟨c, hc, rfl⟩ := List.mem_map.mp hr
    rw [List.mem_singleton.mp hs] at hb
    simp only [min_tblgen.Pattern.holds, beq_iff_eq] at hb
    have hm : c.1 ∈ min_tblgen.exactNames := List.mem_map.mpr ⟨c, hc, rfl⟩
    have := min_tblgen.exactNames_not_targetParserDef c.1 hm
    rw [← hb.1, hb.2] at this
    exact Bool.noConfusion this

theorem min_tblgen.find?_rules_aux (b : String) (r : min_tblgen.Pattern × String)
    (l : List (String × String)) :
    ((l.map (fun c => (min_tblgen.Pattern.exact c.1, c.2)) ++ [r]).find?
        (fun r => r.1.holds b)).map Prod.snd =
      match l.lookup b with
      | some g => some g
      | none => if r.1.holds b then some r.2 else none := by
  induction l with
  | nil => simp
  | cons c t ih =>
    obtain ⟨a, v⟩ := c
    rw [List.map_cons, List.cons_append, List.find?_cons, List.lookup_cons]
    simp only [min_tblgen.Pattern.holds]
    cases hba : b == a with
    | true => rfl
    | false => exact ih

theorem min_tblgen.classifyWith_rules (ctx : android.ModuleContext) (out : String) :
    min_tblgen.classifyWith min_tblgen.rules ctx out = min_tblgen_outToGenerator ctx out := by
  have h := min_tblgen.find?_rules_aux (filepath.Base out)
    (min_tblgen.Pattern.hasSuffix min_tblgen.targetParserDef, "-gen-riscv-target-def")
    min_tblgen.exactCases
  rw [min_tblgen_outToGenerator_eq_lookup]
  unfold min_tblgen.classifyWith
  simp only []
  change (min_tblgen.rules.find? _).map Prod.snd = _ at h
  cases hf : min_tblgen.rules.find? (fun r => r.1.holds (filepath.Base out)) with
  | none =>
    rw [hf] at h
    cases hl : min_tblgen.exactCases.lookup (filepath.Base out) with
    | some g => rw [hl] at h; cases h
    | none =>
      rw [hl] at h
      simp only [min_tblgen.Pattern.holds] at h
      by_cases hs : strings.HasSuffix (filepath.Base out) min_tblgen.targetParserDef = true
      · simp [hs] at h
      · simp [hs]
  | some r =>
    rw [hf] at h
    cases hl : min_tblgen.exactCases.lookup (filepath.Base out) with
    | some g =>
      rw [hl] at h
      simp only [Option.map_some', Option.some.injEq] at h
      simp [h]
    | none =>
      rw [hl] at h
      simp only [min_tblgen.Pattern.holds] at h
      by_cases hs : strings.HasSuffix (filepath.Base out) min_tblgen.targetParserDef = true
      · simp only [hs, if_true, Option.map_some', Option.some.injEq] at h
        simp [hs, h]
      · simp [hs] at h

/-- C14: the exact-match rules and the suffix rule never collide.  None of the
27 exact names ends in "RISCVTargetParserDef.inc" and the exact names are
pairwise distinct, so at most one rule of the switch passes on any base name,
and the classifier agrees with a first-match lookup over the same rules taken
in any order, the suffix rule before the exact rules included. -/
theorem min_tblgen_outToGenerator_rules_any_order (ctx : android.ModuleContext) (out : String) :
    (∀ n ∈ min_tblgen.exactNames, strings.HasSuffix n "RISCVTargetParserDef.inc" = false) ∧
    min_tblgen.exactNames.Nodup ∧
    min_tblgen.exactNames.length = 27 ∧
    (min_tblgen.rules.filter (fun r => r.1.holds (filepath.Base out))).length ≤ 1 ∧
    (∀ rs : List (min_tblgen.Pattern × String), rs.Perm min_tblgen.rules →
      min_tblgen.classifyWith rs ctx out = min_tblgen_outToGenerator ctx out) ∧
    min_tblgen.classifyWith
        ((min_tblgen.Pattern.hasSuffix "RISCVTargetParserDef.inc", "-gen-riscv-target-def") ::
          min_tblgen.exactCases.map (fun c => (min_tblgen.Pattern.exact c.1, c.2)))
        ctx out =
      min_tblgen_outToGenerator ctx out := by
  have hperm : ∀ rs : List (min_tblgen.Pattern × String), rs.Perm min_tblgen.rules →
      min_tblgen.classifyWith rs ctx out = min_tblgen_outToGenerator ctx out := by
    intro rs hrs
    rw [← min_tblgen.classifyWith_rules]
    unfold min_tblgen.classifyWith
    simp only []
    rw [min_tblgen.find?_perm_of_pairwise _ min_tblgen.rules rs
      (min_tblgen.rules_pairwise (filepath.Base out)) hrs]
  refine ⟨min_tblgen.exactNames_not_targetParserDef, min_tblgen.exactNames_nodup, rfl,
    min_tblgen.filter_length_le_one_of_pairwise _ _ (min_tblgen.rules_pairwise _), hperm, ?_⟩
  apply hperm
  unfold min_tblgen.rules
  exact (List.perm_append_singleton _ _).symm

/-- Witness for C14: the rules in reverse source order classify a name of the
suffix family, below a directory, like the switch does. -/
theorem min_tblgen_outToGenerator_rules_any_order_witness :
    min_tblgen.classifyWith min_tblgen.rules.reverse sampleCtx
        "lib/TargetParser/RISCVTargetParserDef.inc" =
      min_tblgen_outToGenerator sampleCtx "lib/TargetParser/RISCVTargetParserDef.inc" :=
  (min_tblgen_outToGenerator_rules_any_order sampleCtx
      "lib/TargetParser/RISCVTargetParserDef.inc").2.2.2.2.1
    min_tblgen.rules.reverse (List.reverse_perm _)

/-- C15: `GenerateAndroidBuildActions` only appends to the published state of
the module.  From `generatedHeaders = H` and `exportedHeaderDirs = E` one
evaluation leaves `H` followed by the paths allocated for the outputs, and `E`
followed by the generated-output root.  Two evaluations of a fresh module
register twice `len(outputs)` build actions, publish every output path twice
and leave two include-directory entries. -/
theorem GenerateAndroidBuildActions_appends (t : min_tblgen) (ctx : android.ModuleContext) :
    (t.GenerateAndroidBuildActions ctx).1.generatedHeaders =
        t.generatedHeaders ++ t.properties.Outs.map (android.PathForModuleGen ctx) ∧
    (t.GenerateAndroidBuildActions ctx).1.exportedHeaderDirs =
        t.exportedHeaderDirs ++ [android.PathForModuleGen ctx ""] ∧
    (((llvmMinTblgenFactory t.properties).GenerateAndroidBuildActions
          ctx).1.GenerateAndroidBuildActions
        ((llvmMinTblgenFactory t.properties).GenerateAndroidBuildActions ctx).2).2.builds.length =
      ctx.builds.length + 2 * t.properties.Outs.length ∧
    (((llvmMinTblgenFactory t.properties).GenerateAndroidBuildActions
          ctx).1.GenerateAndroidBuildActions
        ((llvmMinTblgenFactory t.properties).GenerateAndroidBuildActions ctx).2).1.generatedHeaders =
      t.properties.Outs.map (android.PathForModuleGen ctx) ++
        t.properties.Outs.map (android.PathForModuleGen ctx) ∧
    (((llvmMinTblgenFactory t.properties).GenerateAndroidBuildActions
          ctx).1.GenerateAndroidBuildActions
        ((llvmMinTblgenFactory t.properties).GenerateAndroidBuildActions ctx).2).1.exportedHeaderDirs =
      [android.PathForModuleGen ctx "", android.PathForModuleGen ctx ""] := by
  simp only [min_tblgen.GenerateAndroidBuildActions_eq]
  refine ⟨rfl, rfl, ?_, rfl, rfl⟩
  simp [llvmMinTblgenFactory]
  omega

/-- C16: the accessors expose the accumulated published state and nothing else.
In every module state `GeneratedDeps` returns `generatedHeaders`,
`GeneratedHeaderDirs` returns `exportedHeaderDirs` and `GeneratedSourceFiles`
returns nil, before and after `GenerateAndroidBuildActions`; and
`GenerateAndroidBuildActions` leaves the properties `In` and `Outs` as they
were. -/
theorem GenerateAndroidBuildActions_accessors (t : min_tblgen) (ctx : android.ModuleContext) :
    t.GeneratedDeps = t.generatedHeaders ∧
    t.GeneratedHeaderDirs = t.exportedHeaderDirs ∧
    t.GeneratedSourceFiles = [] ∧
    (t.GenerateAndroidBuildActions ctx).1.GeneratedDeps =
        t.generatedHeaders ++ t.properties.Outs.map (android.PathForModuleGen ctx) ∧
    (t.GenerateAndroidBuildActions ctx).1.GeneratedHeaderDirs =
        t.exportedHeaderDirs ++ [android.PathForModuleGen ctx ""] ∧
    (t.GenerateAndroidBuildActions ctx).1.GeneratedSourceFiles = [] ∧
    (t.GenerateAndroidBuildActions ctx).1.properties.In = t.properties.In ∧
    (t.GenerateAndroidBuildActions ctx).1.properties.Outs = t.properties.Outs := by
  rw [min_tblgen.GenerateAndroidBuildActions_eq]
  exact ⟨rfl, rfl, rfl, rfl, rfl, rfl, rfl, rfl⟩

/-- C17: the 18 per-architecture intrinsics headers are classified to pairwise
distinct generator strings: two different headers get different strings, and
none of them gets the parameterless "-gen-intrinsic-enums" that
"IntrinsicEnums.inc" gets. -/
theorem min_tblgen_outToGenerator_arch_distinct (ctx : android.ModuleContext) :
    min_tblgen.archHeaders.length = 18 ∧
    (min_tblgen.archHeaders.map (fun n => (min_tblgen_outToGenerator ctx n).2)).Nodup ∧
    (∀ a ∈ min_tblgen.archHeaders, ∀ b ∈ min_tblgen.archHeaders, a ≠ b →
      (min_tblgen_outToGenerator ctx a).2 ≠ (min_tblgen_outToGenerator ctx b).2) ∧
    (∀ a ∈ min_tblgen.archHeaders,
      (min_tblgen_outToGenerator ctx a).2 ≠ "-gen-intrinsic-enums" ∧
      (min_tblgen_outToGenerator ctx a).2 ≠
        (min_tblgen_outToGenerator ctx "IntrinsicEnums.inc").2) ∧
    (min_tblgen_outToGenerator ctx "IntrinsicEnums.inc").2 = "-gen-intrinsic-enums" := by
  have hm : min_tblgen.archHeaders.map (fun n => (min_tblgen_outToGenerator ctx n).2) =
      min_tblgen.archHeaders.map (fun n => (min_tblgen_outToGenerator sampleCtx n).2) :=
    List.map_congr_left (fun n _ => min_tblgen_outToGenerator_snd ctx sampleCtx n)
  have hnd : (min_tblgen.archHeaders.map
      (fun n => (min_tblgen_outToGenerator ctx n).2)).Nodup := by
    rw [hm]
    decide
  have hne : ∀ a ∈ min_tblgen.archHeaders,
      (min_tblgen_outToGenerator ctx a).2 ≠ "-gen-intrinsic-enums" := by
    intro a ha h
    have hmem : (min_tblgen_outToGenerator ctx a).2 ∈
        min_tblgen.archHeaders.map (fun n => (min_tblgen_outToGenerator ctx n).2) :=
      List.mem_map_of_mem _ ha
    rw [hm, h] at hmem
    exact absurd hmem (by decide)
  refine ⟨rfl, hnd, ?_, fun a ha => ⟨hne a ha, hne a ha⟩, rfl⟩
  intro a ha b hb hab h
  exact hab (List.inj_on_of_nodup_map hnd ha hb h)

/-- Witness for C17: the ARM and the AArch64 headers on the sample context. -/
theorem min_tblgen_outToGenerator_arch_distinct_witness :
    (min_tblgen_outToGenerator sampleCtx "IntrinsicsARM.h").2 ≠
      (min_tblgen_outToGenerator sampleCtx "IntrinsicsAArch64.h").2 :=
  (min_tblgen_outToGenerator_arch_distinct sampleCtx).2.2.1
    "IntrinsicsARM.h" (by decide) "IntrinsicsAArch64.h" (by decide) (by decide)
